import Mathlib

/-!
Verification of the sysmon system monitor (Go).

Shallow embedding conventions:
* Go `uint64` values are `Nat` together with explicit `% 2^64` where Go
  arithmetic can wrap (`sub64`, `addMod64`).
* Go `float64` arithmetic is modelled exactly over `ℚ` (the properties proved
  here are order and sign facts on small rationals, where binary floating
  point agrees).
* Go `time.Duration` is `Nat` nanoseconds; wall-clock instants are `ℚ` seconds.
* Go slices are Lean lists; in-place index assignment is `List.set` and the
  element read `data[i]` is `List.getD i default` (all reads performed by the
  algorithms below are in bounds, where the two coincide).
* The Go standard library `sort.Slice` (an external dependency of the
  repository) is embedded by its actual implementation: pattern-defeating
  quicksort (`pdqsort`, Go 1.19 and later), so that the exact output order —
  including its treatment of ties — is reproduced.
-/

namespace Sysmon

/-! ## Go sort.Slice: pattern-defeating quicksort, embedded on lists -/

variable {α : Type} [Inhabited α]

/-- In-place swap of two slice positions (`data.Swap(i, j)`); out-of-range
indices leave the list unchanged (the sort only ever swaps in bounds). -/
def mySwap (l : List α) (i j : Nat) : List α :=
  if i < l.length ∧ j < l.length then
    let vi := l.getD i default
    let vj := l.getD j default
    (l.set i vj).set j vi
  else l

/-- `data.Less(i, j)` for a comparison function `lt` on elements. -/
def lessAt (lt : α → α → Bool) (l : List α) (i j : Nat) : Bool :=
  lt (l.getD i default) (l.getD j default)

/-- Inner loop of Go `insertionSort_func`:
`for j := i; j > a && data.Less(j, j-1); j-- { data.Swap(j, j-1) }`. -/
def insInner (lt : α → α → Bool) (a : Nat) : List α → Nat → List α
  | l, 0 => l
  | l, j+1 =>
    if a < j + 1 ∧ lessAt lt l (j+1) j then insInner lt a (mySwap l (j+1) j) j else l

/-- Outer loop of Go `insertionSort_func` (`i` runs from `a+1` up to `b`). -/
def insOuter (lt : α → α → Bool) (a b : Nat) : List α → Nat → Nat → List α
  | l, _, 0 => l
  | l, i, fuel+1 => if i < b then insOuter lt a b (insInner lt a l i) (i+1) fuel else l

/-- Go `insertionSort_func(data, a, b)`. -/
def insertionSortGo (lt : α → α → Bool) (l : List α) (a b : Nat) : List α :=
  insOuter lt a b l (a+1) b

/-- Go `siftDown_func(data, lo, hi, first)` (argument `root` is `lo`). -/
def siftDownGo (lt : α → α → Bool) : Nat → List α → Nat → Nat → Nat → List α
  | 0, l, _, _, _ => l
  | fuel+1, l, root, hi, first =>
    let child := 2 * root + 1
    if hi ≤ child then l
    else
      let child := if child + 1 < hi ∧ lessAt lt l (first+child) (first+child+1) then child + 1 else child
      if lessAt lt l (first+root) (first+child) then
        siftDownGo lt fuel (mySwap l (first+root) (first+child)) child hi first
      else l

/-- Heap construction of Go `heapSort_func` (`i := (hi-1)/2` down to `0`). -/
def heapBuildGo (lt : α → α → Bool) (hi first : Nat) : List α → Nat → List α
  | l, 0 => l
  | l, k+1 => heapBuildGo lt hi first (siftDownGo lt (hi+2) l k hi first) k

/-- Pop phase of Go `heapSort_func` (`i := hi-1` down to `0`). -/
def heapPopGo (lt : α → α → Bool) (first : Nat) : List α → Nat → List α
  | l, 0 => l
  | l, k+1 => heapPopGo lt first (siftDownGo lt (k+2) (mySwap l first (first+k)) 0 k first) k

/-- Go `heapSort_func(data, a, b)`. -/
def heapSortGo (lt : α → α → Bool) (l : List α) (a b : Nat) : List α :=
  let hi := b - a
  heapPopGo lt a (heapBuildGo lt hi a l ((hi - 1) / 2 + 1)) hi

/-- First scan of Go `partition_func`: `for i <= j && data.Less(i, a) { i++ }`. -/
def scanLess (lt : α → α → Bool) (l : List α) (aIdx j : Nat) : Nat → Nat → Nat
  | i, 0 => i
  | i, fuel+1 =>
    if i ≤ j ∧ lessAt lt l i aIdx then scanLess lt l aIdx j (i+1) fuel else i

/-- Second scan of Go `partition_func`: `for i <= j && !data.Less(j, a) { j-- }`. -/
def scanGeq (lt : α → α → Bool) (l : List α) (aIdx i : Nat) : Nat → Nat → Nat
  | j, 0 => j
  | j, fuel+1 =>
    if i ≤ j ∧ lessAt lt l j aIdx = false then scanGeq lt l aIdx i (j-1) fuel else j

/-- Main loop of Go `partition_func` after the first exchange. -/
def partLoop (lt : α → α → Bool) (aIdx bnd : Nat) : Nat → List α → Nat → Nat → List α × Nat × Nat
  | 0, l, i, j => (l, i, j)
  | fuel+1, l, i, j =>
    let i := scanLess lt l aIdx j i bnd
    let j := scanGeq lt l aIdx i j bnd
    if j < i then (l, i, j)
    else partLoop lt aIdx bnd fuel (mySwap l i j) (i+1) (j-1)

/-- Go `partition_func(data, a, b, pivot)`; returns the list, `newpivot` and
`alreadyPartitioned`. -/
def partitionGo (lt : α → α → Bool) (l : List α) (a b pivot : Nat) : List α × Nat × Bool :=
  let l := mySwap l a pivot
  let i := a + 1
  let j := b - 1
  let i := scanLess lt l a j i b
  let j := scanGeq lt l a i j b
  if j < i then (mySwap l j a, j, true)
  else
    let l := mySwap l i j
    let r := partLoop lt a b b l (i+1) (j-1)
    (mySwap r.1 r.2.2 a, r.2.2, false)

/-- First scan of Go `partitionEqual_func`: `for i <= j && !data.Less(a, i) { i++ }`. -/
def scanNotLessPiv (lt : α → α → Bool) (l : List α) (aIdx j : Nat) : Nat → Nat → Nat
  | i, 0 => i
  | i, fuel+1 =>
    if i ≤ j ∧ lessAt lt l aIdx i = false then scanNotLessPiv lt l aIdx j (i+1) fuel else i

/-- Second scan of Go `partitionEqual_func`: `for i <= j && data.Less(a, j) { j-- }`. -/
def scanLessPiv (lt : α → α → Bool) (l : List α) (aIdx i : Nat) : Nat → Nat → Nat
  | j, 0 => j
  | j, fuel+1 =>
    if i ≤ j ∧ lessAt lt l aIdx j then scanLessPiv lt l aIdx i (j-1) fuel else j

/-- Loop of Go `partitionEqual_func`. -/
def partEqLoop (lt : α → α → Bool) (aIdx bnd : Nat) : Nat → List α → Nat → Nat → List α × Nat
  | 0, l, i, _ => (l, i)
  | fuel+1, l, i, j =>
    let i := scanNotLessPiv lt l aIdx j i bnd
    let j := scanLessPiv lt l aIdx i j bnd
    if j < i then (l, i)
    else partEqLoop lt aIdx bnd fuel (mySwap l i j) (i+1) (j-1)

/-- Go `partitionEqual_func(data, a, b, pivot)`. -/
def partitionEqualGo (lt : α → α → Bool) (l : List α) (a b pivot : Nat) : List α × Nat :=
  let l := mySwap l a pivot
  partEqLoop lt a b b l (a+1) (b-1)

/-- Advance of Go `partialInsertionSort_func`: `for i < b && !data.Less(i, i-1) { i++ }`. -/
def padvance (lt : α → α → Bool) (l : List α) (b : Nat) : Nat → Nat → Nat
  | i, 0 => i
  | i, fuel+1 =>
    if i < b ∧ lessAt lt l i (i-1) = false then padvance lt l b (i+1) fuel else i

/-- Left shift of Go `partialInsertionSort_func`
(`for j := i-1; j >= 1; j--` with break on `!data.Less(j, j-1)`). -/
def shiftLeftGo (lt : α → α → Bool) : Nat → List α → Nat → List α
  | 0, l, _ => l
  | fuel+1, l, j =>
    if 1 ≤ j then
      if lessAt lt l j (j-1) = false then l
      else shiftLeftGo lt fuel (mySwap l j (j-1)) (j-1)
    else l

/-- Right shift of Go `partialInsertionSort_func`
(`for j := i+1; j < b; j++` with break on `!data.Less(j, j-1)`). -/
def shiftRightGo (lt : α → α → Bool) (b : Nat) : Nat → List α → Nat → List α
  | 0, l, _ => l
  | fuel+1, l, j =>
    if j < b then
      if lessAt lt l j (j-1) = false then l
      else shiftRightGo lt b fuel (mySwap l j (j-1)) (j+1)
    else l

/-- Step loop of Go `partialInsertionSort_func` (`maxSteps = 5`,
`shortestShifting = 50`); returns the list and whether it ended sorted. -/
def pinsSteps (lt : α → α → Bool) (a b : Nat) : Nat → List α → Nat → List α × Bool
  | 0, l, _ => (l, false)
  | steps+1, l, i =>
    let i := padvance lt l b i (b + 1)
    if i = b then (l, true)
    else if b - a < 50 then (l, false)
    else
      let l := mySwap l i (i-1)
      let l := if 2 ≤ i - a then shiftLeftGo lt b l (i-1) else l
      let l := if 2 ≤ b - i then shiftRightGo lt b b l (i+1) else l
      pinsSteps lt a b steps l i

/-- Go `partialInsertionSort_func(data, a, b)`. -/
def partialInsertionSortGo (lt : α → α → Bool) (l : List α) (a b : Nat) : List α × Bool :=
  pinsSteps lt a b 5 l (a+1)

/-- Sortedness hints of Go `choosePivot_func`. -/
inductive SortHint | increasing | decreasing | unknown
deriving DecidableEq

/-- Go `order2_func(data, a, b, &swaps)`. -/
def order2Go (lt : α → α → Bool) (l : List α) (a b swaps : Nat) : Nat × Nat × Nat :=
  if lessAt lt l b a then (b, a, swaps + 1) else (a, b, swaps)

/-- Go `median_func(data, a, b, c, &swaps)`. -/
def medianGo (lt : α → α → Bool) (l : List α) (a b c swaps : Nat) : Nat × Nat :=
  let r1 := order2Go lt l a b swaps
  let r2 := order2Go lt l r1.2.1 c r1.2.2
  let r3 := order2Go lt l r1.1 r2.1 r2.2.2
  (r3.2.1, r3.2.2)

/-- Go `medianAdjacent_func(data, a, &swaps)`. -/
def medianAdjGo (lt : α → α → Bool) (l : List α) (a swaps : Nat) : Nat × Nat :=
  medianGo lt l (a-1) a (a+1) swaps

/-- Go `choosePivot_func(data, a, b)` (`shortestNinther = 50`, `maxSwaps = 12`). -/
def choosePivotGo (lt : α → α → Bool) (l : List α) (a b : Nat) : Nat × SortHint :=
  let len := b - a
  let i := a + len / 4 * 1
  let j := a + len / 4 * 2
  let k := a + len / 4 * 3
  if 8 ≤ len then
    let ijks :=
      if 50 ≤ len then
        let r1 := medianAdjGo lt l i 0
        let r2 := medianAdjGo lt l j r1.2
        let r3 := medianAdjGo lt l k r2.2
        (r1.1, r2.1, r3.1, r3.2)
      else (i, j, k, 0)
    let r := medianGo lt l ijks.1 ijks.2.1 ijks.2.2.1 ijks.2.2.2
    (r.1, if r.2 = 0 then SortHint.increasing
          else if r.2 = 12 then SortHint.decreasing else SortHint.unknown)
  else (j, SortHint.increasing)

/-- Loop of Go `reverseRange_func`. -/
def revRangeGo : Nat → List α → Nat → Nat → List α
  | 0, l, _, _ => l
  | fuel+1, l, i, j => if i < j then revRangeGo fuel (mySwap l i j) (i+1) (j-1) else l

/-- Go `reverseRange_func(data, a, b)`. -/
def reverseRangeGo (l : List α) (a b : Nat) : List α := revRangeGo b l a (b-1)

/-- `bits.Len` on a `uint`. -/
def bitsLen (n : Nat) : Nat := if n = 0 then 0 else n.log2 + 1

/-- One step of Go sort's `xorshift` generator (64-bit state). -/
def xorshiftNext (r : Nat) : Nat :=
  let r := (r ^^^ (r <<< 13)) % 2^64
  let r := r ^^^ (r >>> 7)
  (r ^^^ (r <<< 17)) % 2^64

/-- Go `breakPatterns_func(data, a, b)` (the three-iteration loop unrolled). -/
def breakPatternsGo (l : List α) (a b : Nat) : List α :=
  let len := b - a
  if 8 ≤ len then
    let modulus := 1 <<< bitsLen len
    let idx := a + len / 4 * 2 - 1
    let r0 := xorshiftNext len
    let other0 := r0 &&& (modulus - 1)
    let other0 := if len ≤ other0 then other0 - len else other0
    let l := mySwap l (idx - 1 + 0) (a + other0)
    let r1 := xorshiftNext r0
    let other1 := r1 &&& (modulus - 1)
    let other1 := if len ≤ other1 then other1 - len else other1
    let l := mySwap l (idx - 1 + 1) (a + other1)
    let r2 := xorshiftNext r1
    let other2 := r2 &&& (modulus - 1)
    let other2 := if len ≤ other2 then other2 - len else other2
    mySwap l (idx - 1 + 2) (a + other2)
  else l

/-- The `if !wasBalanced { breakPatterns; limit-- }` step of `pdqsort_func`:
returns the (possibly scattered) list and the remaining `limit`. -/
def pdqBreakStage (l : List α) (a b limit : Nat) (wasBalanced : Bool) : List α × Nat :=
  if wasBalanced = false then (breakPatternsGo l a b, limit - 1) else (l, limit)

/-- The pivot choice and `decreasingHint` reversal step of `pdqsort_func`:
returns the list, the pivot index and the (possibly rewritten) hint. -/
def pdqHintStage (lt : α → α → Bool) (l1 : List α) (a b : Nat) : List α × Nat × SortHint :=
  let pr := choosePivotGo lt l1 a b
  if pr.2 = SortHint.decreasing then
    (reverseRangeGo l1 a b, (b - 1) - (pr.1 - a), SortHint.increasing)
  else (l1, pr.1, pr.2)

/-- The `partialInsertionSort` attempt of `pdqsort_func` (run only when the
previous partitioning was balanced, already partitioned, and the hint is
increasing). -/
def pdqEarlyStage (lt : α → α → Bool) (l2 : List α) (a b : Nat)
    (wasBalanced wasPartitioned : Bool) (hint : SortHint) : List α × Bool :=
  if wasBalanced ∧ wasPartitioned ∧ hint = SortHint.increasing then
    partialInsertionSortGo lt l2 a b
  else (l2, false)

/-- Go `pdqsort_func(data, a, b, limit)`; `fuel` bounds the recursion depth
(every recursive call is on a strictly smaller range, so any fuel larger than
`b - a + 1` is enough). The booleans are `wasBalanced` and `wasPartitioned`;
the iterative `for` of the Go function is the tail-recursive calls below, and
the recursive Go call restarts with both booleans `true`. -/
def pdqsortFuel (lt : α → α → Bool) : Nat → List α → Nat → Nat → Nat → Bool → Bool → List α
  | 0, l, _, _, _, _, _ => l
  | fuel+1, l, a, b, limit, wasBalanced, wasPartitioned =>
    let len := b - a
    if len ≤ 12 then insertionSortGo lt l a b
    else if limit = 0 then heapSortGo lt l a b
    else
      let bs := pdqBreakStage l a b limit wasBalanced
      let hs := pdqHintStage lt bs.1 a b
      let pivot := hs.2.1
      let es := pdqEarlyStage lt hs.1 a b wasBalanced wasPartitioned hs.2.2
      if es.2 then es.1
      else if 0 < a ∧ lessAt lt es.1 (a-1) pivot = false then
        let pe := partitionEqualGo lt es.1 a b pivot
        pdqsortFuel lt fuel pe.1 pe.2 b bs.2 wasBalanced wasPartitioned
      else
        let pt := partitionGo lt es.1 a b pivot
        let mid := pt.2.1
        let newBalanced := decide (len / 8 ≤ min (mid - a) (b - mid))
        if mid - a < b - mid then
          pdqsortFuel lt fuel (pdqsortFuel lt fuel pt.1 a mid bs.2 true true)
            (mid+1) b bs.2 newBalanced pt.2.2
        else
          pdqsortFuel lt fuel (pdqsortFuel lt fuel pt.1 (mid+1) b bs.2 true true)
            a mid bs.2 newBalanced pt.2.2

/-- Go `sort.Slice(x, less)`: `pdqsort_func(lessSwap, 0, length, bits.Len(length))`. -/
def goSortSlice (lt : α → α → Bool) (l : List α) : List α :=
  pdqsortFuel lt (l.length + 2) l 0 l.length (bitsLen l.length) true true

/-! ### Reference form of the insertion sort

`insertionSortGo` bubbles each element left by adjacent swaps.  The list-level
form below (insert from the right into the sorted accumulated front) is proved
equal to it and is the vehicle for the sortedness and stability lemmas. -/

/-- Insertion of `x` into the reversed accumulated front: walk the elements
from the right, passing those `y` with `lt x y`. -/
def insRev (lt : α → α → Bool) (x : α) : List α → List α
  | [] => [x]
  | y :: t => if lt x y then y :: insRev lt x t else x :: y :: t

/-- Insertion of `x` into the accumulated front `acc` from the right. -/
def goInsertR (lt : α → α → Bool) (acc : List α) (x : α) : List α :=
  (insRev lt x acc.reverse).reverse

/-- List-level form of `insertionSortGo lt l 0 l.length`. -/
def golist (lt : α → α → Bool) (l : List α) : List α := l.foldl (goInsertR lt) []

/-! ## internal/processes.go -/

/-- `ProcessInfo` of internal/processes.go (times and counts carried as
integers, percentages as rationals). -/
structure ProcessInfo where
  pid : Int
  name : String
  username : String
  cpuPercent : ℚ
  memPercent : ℚ
  memoryMB : Nat
  status : String
  createTime : Int
  numThreads : Int
  commandLine : String
deriving DecidableEq, Inhabited

/-- `getTopProcesses(processes, sortBy, limit)`: copy, `sort.Slice` by the
selected metric (descending), then `sorted[:limit]` when long enough. -/
def getTopProcesses (processes : List ProcessInfo) (sortBy : String) (limit : Nat) :
    List ProcessInfo :=
  let sorted := processes
  let sorted :=
    if sortBy = "cpu" then
      goSortSlice (fun x y => decide (y.cpuPercent < x.cpuPercent)) sorted
    else if sortBy = "memory" then
      goSortSlice (fun x y => decide (y.memPercent < x.memPercent)) sorted
    else sorted
  if sorted.length < limit then sorted else sorted.take limit

/-- The command-line logic of `getProcessInfo`: `cmdline = none` models a
failed `proc.Cmdline()` call.  Lengths are character counts (Go measures
bytes; the two agree on single-byte characters). -/
def commandLineOf (name : String) (cmdline : Option String) : String :=
  match cmdline with
  | some c =>
    if 0 < c.length then
      if 100 < c.length then c.take 100 ++ "..." else c
    else name
  | none => name

/-! ## internal/network.go -/

/-- Go `uint64` addition. -/
def addMod64 (a b : Nat) : Nat := (a + b) % 2^64

/-- Go `uint64` subtraction `a - b` (wraparound), for `a, b < 2^64`. -/
def sub64 (a b : Nat) : Nat := (a + 2^64 - b) % 2^64

/-- One per-interface row of `gopsutil`'s `net.IOCounters(true)`. -/
structure IOCounter where
  name : String
  bytesSent : Nat
  bytesRecv : Nat
  packetsSent : Nat
  packetsRecv : Nat
  errin : Nat
  errout : Nat
  dropin : Nat
  dropout : Nat
deriving DecidableEq, Inhabited

/-- `NetworkInterface` of internal/network.go. -/
structure NetworkInterface where
  name : String
  bytesSent : Nat
  bytesRecv : Nat
  packetsSent : Nat
  packetsRecv : Nat
  errin : Nat
  errout : Nat
  dropin : Nat
  dropout : Nat
  speed : Nat
  isUp : Bool
  hasTraffic : Bool
  lastUpdate : ℚ
deriving DecidableEq, Inhabited

/-- `NetworkStats` of internal/network.go. -/
structure NetworkStats where
  interfaces : List NetworkInterface
  totalSent : Nat
  totalRecv : Nat
  activeIfaces : Nat
  connections : Nat
  timestamp : ℚ
deriving DecidableEq, Inhabited

/-- `NetworkSpeed` of internal/network.go. -/
structure NetworkSpeed where
  interface : String
  uploadKBps : ℚ
  downloadKBps : ℚ
  timestamp : ℚ
deriving DecidableEq, Inhabited

/-- `loopbackNames` of `isLoopbackInterface`. -/
def loopbackNames : List String := ["lo", "lo0", "Loopback"]

/-- `isLoopbackInterface(name)`. -/
def isLoopbackInterface (name : String) : Bool :=
  loopbackNames.any (fun loName => name == loName)

/-- The interface record built for one counter row inside `GetNetworkStats`
(`Speed` is never assigned and stays zero; `IsUp` is the `HasTraffic`
heuristic). -/
def mkIface (c : IOCounter) (now : ℚ) : NetworkInterface :=
  { name := c.name
    bytesSent := c.bytesSent
    bytesRecv := c.bytesRecv
    packetsSent := c.packetsSent
    packetsRecv := c.packetsRecv
    errin := c.errin
    errout := c.errout
    dropin := c.dropin
    dropout := c.dropout
    speed := 0
    isUp := decide (0 < c.bytesSent) || decide (0 < c.bytesRecv)
    hasTraffic := decide (0 < c.bytesSent) || decide (0 < c.bytesRecv)
    lastUpdate := now }

/-- One iteration of the counter loop of `GetNetworkStats`: append the
interface, and accumulate the totals only for non-loopback interfaces with
traffic.  The accumulator is `(interfaces, totalSent, totalRecv, activeCount)`. -/
def statsStep (now : ℚ) (acc : List NetworkInterface × Nat × Nat × Nat) (counter : IOCounter) :
    List NetworkInterface × Nat × Nat × Nat :=
  let iface := mkIface counter now
  let totals :=
    if !(isLoopbackInterface counter.name) && iface.hasTraffic then
      (addMod64 acc.2.1 counter.bytesSent, addMod64 acc.2.2.1 counter.bytesRecv, acc.2.2.2 + 1)
    else acc.2
  (acc.1 ++ [iface], totals)

/-- The interface comparison of the `sort.Slice` in `GetNetworkStats` and
`GetTopNetworkInterfaces`: descending by `BytesSent + BytesRecv` (`uint64`). -/
def trafficGt (i j : NetworkInterface) : Bool :=
  decide (addMod64 j.bytesSent j.bytesRecv < addMod64 i.bytesSent i.bytesRecv)

/-- `GetNetworkStats()`, as a function of the polled counter rows, the
connection count obtained from `getConnectionCount` (0 when that call fails)
and the poll time. -/
def GetNetworkStats (ioCounters : List IOCounter) (connections : Nat) (now : ℚ) : NetworkStats :=
  let acc := ioCounters.foldl (statsStep now) ([], 0, 0, 0)
  { interfaces := goSortSlice trafficGt acc.1
    totalSent := acc.2.1
    totalRecv := acc.2.2.1
    activeIfaces := acc.2.2.2
    connections := connections
    timestamp := now }

/-- `GetTopNetworkInterfaces(interfaces, limit)`: drop loopback and inactive
interfaces, sort by total traffic, truncate to `limit`. -/
def GetTopNetworkInterfaces (interfaces : List NetworkInterface) (limit : Nat) :
    List NetworkInterface :=
  let active := interfaces.filter
    (fun iface => !(isLoopbackInterface iface.name) && iface.hasTraffic)
  let active := goSortSlice trafficGt active
  if active.length < limit then active else active.take limit

/-- The speed comparison of the `sort.Slice` in `GetNetworkSpeeds`:
descending by upload + download. -/
def speedGt (i j : NetworkSpeed) : Bool :=
  decide (j.uploadKBps + j.downloadKBps < i.uploadKBps + i.downloadKBps)

/-- The package-level state of internal/network.go: `previousNetStats`
(`none` for the Go `nil` map) and `lastNetworkRead` (seconds). -/
structure NetState where
  previousNetStats : Option (String → Option NetworkInterface)
  lastNetworkRead : ℚ

/-- The map with no entries. -/
def emptyStore : String → Option NetworkInterface := fun _ => none

/-- `previousNetStats[iface.Name] = iface`. -/
def updStore (m : String → Option NetworkInterface) (iface : NetworkInterface) :
    String → Option NetworkInterface :=
  fun n => if n = iface.name then some iface else m n

/-- The body of the speed loop of `GetNetworkSpeeds` for one current
interface: when a previous entry exists, build the `NetworkSpeed` from the
`uint64` counter deltas, and keep it only if a direction exceeds 0.1 KB/s. -/
def speedFn (prev : String → Option NetworkInterface) (timeDiff now : ℚ)
    (current : NetworkInterface) : Option NetworkSpeed :=
  match prev current.name with
  | some previous =>
    let sentDiff : ℚ := (sub64 current.bytesSent previous.bytesSent : Nat)
    let recvDiff : ℚ := (sub64 current.bytesRecv previous.bytesRecv : Nat)
    let speed : NetworkSpeed :=
      { interface := current.name
        uploadKBps := sentDiff / timeDiff / 1024
        downloadKBps := recvDiff / timeDiff / 1024
        timestamp := now }
    if 1/10 < speed.uploadKBps ∨ 1/10 < speed.downloadKBps then some speed else none
  | none => none

/-- `speeds = append(speeds, ...)` driven by an optional producer. -/
def appendSome {β : Type} (f : β → Option NetworkSpeed) (acc : List NetworkSpeed) (x : β) :
    List NetworkSpeed :=
  match f x with
  | some s => acc ++ [s]
  | none => acc

/-- `GetNetworkSpeeds()`, as a function of the package state, the polled
counter rows, the connection count and the call time; returns the speed list
and the new package state. -/
def GetNetworkSpeeds (st : NetState) (ioCounters : List IOCounter) (connections : Nat)
    (now : ℚ) : List NetworkSpeed × NetState :=
  let currentStats := GetNetworkStats ioCounters connections now
  match st.previousNetStats with
  | none =>
    ([], { previousNetStats := some (currentStats.interfaces.foldl updStore emptyStore)
           lastNetworkRead := now })
  | some prev =>
    let timeDiff := now - st.lastNetworkRead
    if timeDiff ≤ 0 then ([], st)
    else
      let speeds := currentStats.interfaces.foldl (appendSome (speedFn prev timeDiff now)) []
      let newPrev := currentStats.interfaces.foldl updStore prev
      (goSortSlice speedGt speeds,
       { previousNetStats := some newPrev, lastNetworkRead := now })

/-! ## main.go -/

/-- `ViewType` of main.go. -/
inductive ViewType
  | overview
  | processes
  | network
  | disks
  | system
deriving DecidableEq, Inhabited

/-- One second as a Go `time.Duration` (nanoseconds). -/
def second : Nat := 1000000000

/-- The `App` state of main.go; `logFileOpen` models whether the `logFile`
handle is non-nil. -/
structure App where
  currentView : ViewType
  refreshRate : Nat
  paused : Bool
  logToFile : Bool
  logFileOpen : Bool
  showHelp : Bool
  compactMode : Bool
  colorEnabled : Bool
  exitRequested : Bool
deriving DecidableEq, Inhabited

/-- The `App` literal built at the top of `main`. -/
def initialApp : App :=
  { currentView := ViewType.overview
    refreshRate := 3 * second
    paused := false
    logToFile := false
    logFileOpen := false
    showHelp := false
    compactMode := false
    colorEnabled := true
    exitRequested := false }

/-- `toggleLogging` (the success path of opening the log file; display and
I/O effects are outside the state model). -/
def toggleLogging (app : App) : App :=
  if app.logToFile then { app with logToFile := false, logFileOpen := false }
  else { app with logToFile := true, logFileOpen := true }

/-- `handleKeyPress(key)`: the new state and whether the loop should exit.
The `'+'`/`'-'` cases change only `refreshRate`: the `time.NewTicker` they
create is a local variable whose `Stop` is deferred to the end of the call,
so it has no effect on the application state or on the ticker of `main`. -/
def handleKeyPress (app : App) (key : Char) : App × Bool :=
  if key = 'q' ∨ key = 'Q' then (app, true)
  else if key = 'h' ∨ key = 'H' ∨ key = '?' then ({ app with showHelp := !app.showHelp }, false)
  else if key = '1' then ({ app with currentView := ViewType.overview }, false)
  else if key = '2' then ({ app with currentView := ViewType.processes }, false)
  else if key = '3' then ({ app with currentView := ViewType.network }, false)
  else if key = '4' then ({ app with currentView := ViewType.disks }, false)
  else if key = '5' then ({ app with currentView := ViewType.system }, false)
  else if key = 'p' ∨ key = 'P' then ({ app with paused := !app.paused }, false)
  else if key = 'c' ∨ key = 'C' then ({ app with compactMode := !app.compactMode }, false)
  else if key = 'l' ∨ key = 'L' then (toggleLogging app, false)
  else if key = 'e' ∨ key = 'E' then (app, false)
  else if key = 'r' ∨ key = 'R' then (app, false)
  else if key = '+' then
    (if second < app.refreshRate then { app with refreshRate := app.refreshRate - second }
     else app, false)
  else if key = '-' then
    (if app.refreshRate < 10 * second then { app with refreshRate := app.refreshRate + second }
     else app, false)
  else (app, false)

/-- The state visible to the `select` loop of `main`: the `App` plus the
period of the ticker created by `time.NewTicker(app.refreshRate)` before the
loop.  No statement of main.go ever resets that ticker. -/
structure LoopState where
  app : App
  tickerPeriod : Nat
deriving DecidableEq

/-- The loop state right before the first `select`. -/
def initialLoop : LoopState :=
  { app := initialApp, tickerPeriod := initialApp.refreshRate }

/-- The three event sources of the `select` in `main`. -/
inductive LoopEvent
  | signal
  | key (c : Char)
  | tick

/-- One `select` iteration of `main`: signals exit, a key runs
`handleKeyPress` (the loop ticker keeps its period — the ticker made inside
the `'+'`/`'-'` cases is local and stopped on return), a tick redraws.
Returns the new state and whether the loop returns. -/
def loopStep (s : LoopState) (e : LoopEvent) : LoopState × Bool :=
  match e with
  | LoopEvent.signal => (s, true)
  | LoopEvent.key c =>
    let r := handleKeyPress s.app c
    ({ app := r.1, tickerPeriod := s.tickerPeriod }, r.2)
  | LoopEvent.tick => (s, false)

/-- Fold a sequence of keypresses through `handleKeyPress`. -/
def applyKeys (app : App) (ks : List Char) : App :=
  ks.foldl (fun a c => (handleKeyPress a c).1) app

/-! ## Statements of the claims and concrete inputs -/

/-- Descending sortedness by a rational-valued key. -/
def SortedDescBy {β : Type} (key : β → ℚ) (l : List β) : Prop :=
  l.Pairwise (fun p q => key q ≤ key p)

/-- Stability: for each key value, the selected elements appear in the output
in the relative order they had in the input. -/
def StableOn {β : Type} (key : β → ℚ) (input output : List β) : Prop :=
  ∀ v : ℚ, (output.filter (fun p => decide (key p = v))).Sublist
    (input.filter (fun p => decide (key p = v)))

/-- The metric selected by `sortBy` (the claims range over "cpu" and
"memory"). -/
def metricOf (sortBy : String) (p : ProcessInfo) : ℚ :=
  if sortBy = "cpu" then p.cpuPercent else p.memPercent

/-- Claim C1 at one input: length `min`, sorted descending, stable ties. -/
def ClaimC1At (P : List ProcessInfo) (sortBy : String) (n : Nat) : Prop :=
  (getTopProcesses P sortBy n).length = min n P.length ∧
  SortedDescBy (metricOf sortBy) (getTopProcesses P sortBy n) ∧
  StableOn (metricOf sortBy) P (getTopProcesses P sortBy n)

/-- A process row with the given pid and CPU percentage. -/
def exProc (p : Int) (cpu : ℚ) : ProcessInfo :=
  { pid := p, name := "p", username := "u", cpuPercent := cpu, memPercent := 0,
    memoryMB := 0, status := "S", createTime := 0, numThreads := 1, commandLine := "p" }

/-- Thirteen processes: pids 1–12 tied at 5 % CPU, pid 13 at 9 % CPU. -/
def exTie13 : List ProcessInfo :=
  (List.range 12).map (fun i => exProc (Int.ofNat (i + 1)) 5) ++ [exProc 13 9]

/-- The non-loopback active filter of `GetNetworkStats` totals and of
`GetTopNetworkInterfaces`, on counter rows. -/
def nonLoopbackActive (c : IOCounter) : Bool :=
  !(isLoopbackInterface c.name) && (decide (0 < c.bytesSent) || decide (0 < c.bytesRecv))

/-- Claim C6 at one input: loopback rows are excluded from the aggregate
totals but still appear in the per-interface listing produced for display
(the `GetTopNetworkInterfaces _ 8` table of the network view). -/
def ClaimC6At (cs : List IOCounter) (conns : Nat) (now : ℚ) : Prop :=
  ((GetNetworkStats cs conns now).totalSent =
    ((cs.filter nonLoopbackActive).map IOCounter.bytesSent).foldl addMod64 0 ∧
   (GetNetworkStats cs conns now).totalRecv =
    ((cs.filter nonLoopbackActive).map IOCounter.bytesRecv).foldl addMod64 0 ∧
   (GetNetworkStats cs conns now).activeIfaces = (cs.filter nonLoopbackActive).length) ∧
  ∀ c ∈ cs, isLoopbackInterface c.name →
    mkIface c now ∈ GetTopNetworkInterfaces (GetNetworkStats cs conns now).interfaces 8

/-- Claim C5 at one input (the store-exactness part): after the call, the
store has entries only for names present in the current input. -/
def ClaimC5At (st : NetState) (cs : List IOCounter) (conns : Nat) (now : ℚ) : Prop :=
  ∀ m, (GetNetworkSpeeds st cs conns now).2.previousNetStats = some m →
    ∀ n, m n ≠ none → ∃ c ∈ cs, c.name = n

/-- A loopback counter row with traffic. -/
def loCounter : IOCounter :=
  { name := "lo", bytesSent := 500, bytesRecv := 600, packetsSent := 1, packetsRecv := 1,
    errin := 0, errout := 0, dropin := 0, dropout := 0 }

/-- A non-loopback counter row with traffic. -/
def wlanCounter : IOCounter :=
  { name := "wlan0", bytesSent := 4096, bytesRecv := 8192, packetsSent := 4, packetsRecv := 8,
    errin := 0, errout := 0, dropin := 0, dropout := 0 }

/-- A stored baseline entry for an interface named eth0. -/
def ethOldIface : NetworkInterface :=
  mkIface { name := "eth0", bytesSent := 100, bytesRecv := 100, packetsSent := 1,
            packetsRecv := 1, errin := 0, errout := 0, dropin := 0, dropout := 0 } 0

/-- A store holding only the eth0 baseline. -/
def ethStoreFun : String → Option NetworkInterface :=
  fun n => if n = "eth0" then some ethOldIface else none

/-- A package state whose store holds only the eth0 baseline, read at time 0. -/
def stWithEth : NetState :=
  { previousNetStats := some ethStoreFun
    lastNetworkRead := 0 }

/-- The package state before the first call (the Go `nil` map). -/
def stEmptyNet : NetState :=
  { previousNetStats := none, lastNetworkRead := 0 }

/-- A later poll of the eth0 interface (counters advanced by 4096 / 1024). -/
def ethNewCounter : IOCounter :=
  { name := "eth0", bytesSent := 4196, bytesRecv := 1124, packetsSent := 5, packetsRecv := 3,
    errin := 0, errout := 0, dropin := 0, dropout := 0 }

/-- A poll of eth0 after a counter reset: counters far below the baseline. -/
def ethResetCounter : IOCounter :=
  { name := "eth0", bytesSent := 100, bytesRecv := 200, packetsSent := 1, packetsRecv := 1,
    errin := 0, errout := 0, dropin := 0, dropout := 0 }

/-- A baseline entry for eth0 with larger cumulative counters. -/
def ethBigIface : NetworkInterface :=
  mkIface { name := "eth0", bytesSent := 5000, bytesRecv := 300, packetsSent := 9,
            packetsRecv := 2, errin := 0, errout := 0, dropin := 0, dropout := 0 } 0

/-- A store holding only the large eth0 baseline. -/
def bigStoreFun : String → Option NetworkInterface :=
  fun n => if n = "eth0" then some ethBigIface else none

/-- A package state holding the large eth0 baseline, read at time 0. -/
def stBigEth : NetState :=
  { previousNetStats := some bigStoreFun
    lastNetworkRead := 0 }

/-- A command line of 101 characters. -/
def longCmd : String := String.mk (List.replicate 101 'a')

/-! ## The sort permutes its input -/

theorem swapAux_perm (t : List α) : ∀ (j : Nat), j < t.length → ∀ x : α,
    List.Perm (t.getD j default :: t.set j x) (x :: t) := by
  induction t with
  | nil => intro j hj; simp at hj
  | cons y t ih =>
    intro j hj x
    cases j with
    | zero =>
      simp only [List.getD_cons_zero, List.set_cons_zero]
      exact List.Perm.swap x y t
    | succ k =>
      simp only [List.getD_cons_succ, List.set_cons_succ]
      have h1 : List.Perm (t.getD k default :: y :: t.set k x)
          (y :: t.getD k default :: t.set k x) :=
        List.Perm.swap y (t.getD k default) (t.set k x)
      have h2 : List.Perm (y :: t.getD k default :: t.set k x) (y :: x :: t) :=
        List.Perm.cons y (ih k (by simpa using hj) x)
      exact (h1.trans h2).trans (List.Perm.swap x y t)

theorem setSwap_perm (l : List α) : ∀ (i j : Nat), i < l.length → j < l.length →
    List.Perm ((l.set i (l.getD j default)).set j (l.getD i default)) l := by
  induction l with
  | nil => intro i j hi _; simp at hi
  | cons x t ih =>
    intro i j hi hj
    cases i with
    | zero =>
      cases j with
      | zero =>
        simp only [List.getD_cons_zero, List.set_cons_zero]
        exact List.Perm.refl _
      | succ k =>
        simp only [List.getD_cons_zero, List.getD_cons_succ, List.set_cons_zero,
          List.set_cons_succ]
        exact swapAux_perm t k (by simpa using hj) x
    | succ k =>
      cases j with
      | zero =>
        simp only [List.getD_cons_zero, List.getD_cons_succ, List.set_cons_zero,
          List.set_cons_succ]
        exact swapAux_perm t k (by simpa using hi) x
      | succ m =>
        simp only [List.getD_cons_succ, List.set_cons_succ]
        exact List.Perm.cons x (ih k m (by simpa using hi) (by simpa using hj))

theorem mySwap_perm (l : List α) (i j : Nat) : List.Perm (mySwap l i j) l := by
  unfold mySwap
  split
  next h => exact setSwap_perm l i j h.1 h.2
  next => exact List.Perm.refl _

theorem insInner_perm (lt : α → α → Bool) (a : Nat) :
    ∀ (j : Nat) (l : List α), List.Perm (insInner lt a l j) l := by
  intro j
  induction j with
  | zero => intro l; simp only [insInner]; exact List.Perm.refl _
  | succ k ih =>
    intro l
    simp only [insInner]
    split
    · exact (ih _).trans (mySwap_perm _ _ _)
    · exact List.Perm.refl _

theorem insOuter_perm (lt : α → α → Bool) (a b : Nat) :
    ∀ (fuel i : Nat) (l : List α), List.Perm (insOuter lt a b l i fuel) l := by
  intro fuel
  induction fuel with
  | zero => intro i l; simp only [insOuter]; exact List.Perm.refl _
  | succ f ih =>
    intro i l
    simp only [insOuter]
    split
    · exact (ih _ _).trans (insInner_perm lt a i l)
    · exact List.Perm.refl _

theorem insertionSortGo_perm (lt : α → α → Bool) (l : List α) (a b : Nat) :
    List.Perm (insertionSortGo lt l a b) l := by
  simp only [insertionSortGo]
  exact insOuter_perm lt a b b (a+1) l

theorem siftDownGo_perm (lt : α → α → Bool) :
    ∀ (fuel : Nat) (l : List α) (root hi first : Nat),
    List.Perm (siftDownGo lt fuel l root hi first) l := by
  intro fuel
  induction fuel with
  | zero => intro l root hi first; simp only [siftDownGo]; exact List.Perm.refl _
  | succ f ih =>
    intro l root hi first
    simp only [siftDownGo]
    split
    · exact List.Perm.refl _
    · split
      · split
        · exact (ih _ _ _ _).trans (mySwap_perm _ _ _)
        · exact List.Perm.refl _
      · split
        · exact (ih _ _ _ _).trans (mySwap_perm _ _ _)
        · exact List.Perm.refl _

theorem heapBuildGo_perm (lt : α → α → Bool) (hi first : Nat) :
    ∀ (k : Nat) (l : List α), List.Perm (heapBuildGo lt hi first l k) l := by
  intro k
  induction k with
  | zero => intro l; simp only [heapBuildGo]; exact List.Perm.refl _
  | succ n ih =>
    intro l
    simp only [heapBuildGo]
    exact (ih _).trans (siftDownGo_perm lt _ _ _ _ _)

theorem heapPopGo_perm (lt : α → α → Bool) (first : Nat) :
    ∀ (k : Nat) (l : List α), List.Perm (heapPopGo lt first l k) l := by
  intro k
  induction k with
  | zero => intro l; simp only [heapPopGo]; exact List.Perm.refl _
  | succ n ih =>
    intro l
    simp only [heapPopGo]
    exact (ih _).trans ((siftDownGo_perm lt _ _ _ _ _).trans (mySwap_perm _ _ _))

theorem heapSortGo_perm (lt : α → α → Bool) (l : List α) (a b : Nat) :
    List.Perm (heapSortGo lt l a b) l := by
  simp only [heapSortGo]
  exact (heapPopGo_perm lt a _ _).trans (heapBuildGo_perm lt _ a _ l)

theorem partLoop_fst_perm (lt : α → α → Bool) (aIdx bnd : Nat) :
    ∀ (fuel : Nat) (l : List α) (i j : Nat),
    List.Perm (partLoop lt aIdx bnd fuel l i j).1 l := by
  intro fuel
  induction fuel with
  | zero => intro l i j; simp only [partLoop]; exact List.Perm.refl _
  | succ f ih =>
    intro l i j
    simp only [partLoop]
    split
    · exact List.Perm.refl _
    · exact (ih _ _ _).trans (mySwap_perm _ _ _)

theorem partitionGo_fst_perm (lt : α → α → Bool) (l : List α) (a b pivot : Nat) :
    List.Perm (partitionGo lt l a b pivot).1 l := by
  simp only [partitionGo]
  split
  · exact (mySwap_perm _ _ _).trans (mySwap_perm _ _ _)
  · exact (mySwap_perm _ _ _).trans ((partLoop_fst_perm lt a b b _ _ _).trans
      ((mySwap_perm _ _ _).trans (mySwap_perm _ _ _)))

theorem partEqLoop_fst_perm (lt : α → α → Bool) (aIdx bnd : Nat) :
    ∀ (fuel : Nat) (l : List α) (i j : Nat),
    List.Perm (partEqLoop lt aIdx bnd fuel l i j).1 l := by
  intro fuel
  induction fuel with
  | zero => intro l i j; simp only [partEqLoop]; exact List.Perm.refl _
  | succ f ih =>
    intro l i j
    simp only [partEqLoop]
    split
    · exact List.Perm.refl _
    · exact (ih _ _ _).trans (mySwap_perm _ _ _)

theorem partitionEqualGo_fst_perm (lt : α → α → Bool) (l : List α) (a b pivot : Nat) :
    List.Perm (partitionEqualGo lt l a b pivot).1 l := by
  simp only [partitionEqualGo]
  exact (partEqLoop_fst_perm lt a b b _ _ _).trans (mySwap_perm _ _ _)

theorem shiftLeftGo_perm (lt : α → α → Bool) :
    ∀ (fuel : Nat) (l : List α) (j : Nat), List.Perm (shiftLeftGo lt fuel l j) l := by
  intro fuel
  induction fuel with
  | zero => intro l j; simp only [shiftLeftGo]; exact List.Perm.refl _
  | succ f ih =>
    intro l j
    simp only [shiftLeftGo]
    split
    · split
      · exact List.Perm.refl _
      · exact (ih _ _).trans (mySwap_perm _ _ _)
    · exact List.Perm.refl _

theorem shiftRightGo_perm (lt : α → α → Bool) (b : Nat) :
    ∀ (fuel : Nat) (l : List α) (j : Nat), List.Perm (shiftRightGo lt b fuel l j) l := by
  intro fuel
  induction fuel with
  | zero => intro l j; simp only [shiftRightGo]; exact List.Perm.refl _
  | succ f ih =>
    intro l j
    simp only [shiftRightGo]
    split
    · split
      · exact List.Perm.refl _
      · exact (ih _ _).trans (mySwap_perm _ _ _)
    · exact List.Perm.refl _

theorem pinsSteps_fst_perm (lt : α → α → Bool) (a b : Nat) :
    ∀ (steps : Nat) (l : List α) (i : Nat), List.Perm (pinsSteps lt a b steps l i).1 l := by
  intro steps
  induction steps with
  | zero => intro l i; simp only [pinsSteps]; exact List.Perm.refl _
  | succ n ih =>
    intro l i
    simp only [pinsSteps]
    split
    · exact List.Perm.refl _
    · split
      · exact List.Perm.refl _
      · refine (ih _ _).trans ?_
        split
        · refine (shiftRightGo_perm lt b b _ _).trans ?_
          split
          · exact (shiftLeftGo_perm lt b _ _).trans (mySwap_perm _ _ _)
          · exact mySwap_perm _ _ _
        · split
          · exact (shiftLeftGo_perm lt b _ _).trans (mySwap_perm _ _ _)
          · exact mySwap_perm _ _ _

theorem partialInsertionSortGo_fst_perm (lt : α → α → Bool) (l : List α) (a b : Nat) :
    List.Perm (partialInsertionSortGo lt l a b).1 l := by
  simp only [partialInsertionSortGo]
  exact pinsSteps_fst_perm lt a b 5 l (a+1)

theorem revRangeGo_perm :
    ∀ (fuel : Nat) (l : List α) (i j : Nat), List.Perm (revRangeGo fuel l i j) l := by
  intro fuel
  induction fuel with
  | zero => intro l i j; simp only [revRangeGo]; exact List.Perm.refl _
  | succ f ih =>
    intro l i j
    simp only [revRangeGo]
    split
    · exact (ih _ _ _).trans (mySwap_perm _ _ _)
    · exact List.Perm.refl _

theorem reverseRangeGo_perm (l : List α) (a b : Nat) :
    List.Perm (reverseRangeGo l a b) l := by
  simp only [reverseRangeGo]
  exact revRangeGo_perm b l a (b-1)

theorem breakPatternsGo_perm (l : List α) (a b : Nat) :
    List.Perm (breakPatternsGo l a b) l := by
  simp only [breakPatternsGo]
  split
  · exact (mySwap_perm _ _ _).trans ((mySwap_perm _ _ _).trans (mySwap_perm _ _ _))
  · exact List.Perm.refl _

theorem pdqBreakStage_fst_perm (l : List α) (a b limit : Nat) (wb : Bool) :
    List.Perm (pdqBreakStage l a b limit wb).1 l := by
  unfold pdqBreakStage
  split
  · exact breakPatternsGo_perm l a b
  · exact List.Perm.refl _

theorem pdqHintStage_fst_perm (lt : α → α → Bool) (l1 : List α) (a b : Nat) :
    List.Perm (pdqHintStage lt l1 a b).1 l1 := by
  simp only [pdqHintStage]
  split
  · exact reverseRangeGo_perm l1 a b
  · exact List.Perm.refl _

theorem pdqEarlyStage_fst_perm (lt : α → α → Bool) (l2 : List α) (a b : Nat)
    (wb wp : Bool) (hint : SortHint) :
    List.Perm (pdqEarlyStage lt l2 a b wb wp hint).1 l2 := by
  unfold pdqEarlyStage
  split
  · exact partialInsertionSortGo_fst_perm lt l2 a b
  · exact List.Perm.refl _

theorem pdqsortFuel_perm (lt : α → α → Bool) :
    ∀ (fuel : Nat) (l : List α) (a b limit : Nat) (wb wp : Bool),
    List.Perm (pdqsortFuel lt fuel l a b limit wb wp) l := by
  intro fuel
  induction fuel with
  | zero => intro l a b limit wb wp; simp only [pdqsortFuel]; exact List.Perm.refl _
  | succ f ih =>
    intro l a b limit wb wp
    simp only [pdqsortFuel]
    split
    · exact insertionSortGo_perm lt l a b
    · split
      · exact heapSortGo_perm lt l a b
      · have stages : List.Perm
            (pdqEarlyStage lt (pdqHintStage lt (pdqBreakStage l a b limit wb).1 a b).1 a b
              wb wp (pdqHintStage lt (pdqBreakStage l a b limit wb).1 a b).2.2).1 l :=
          (pdqEarlyStage_fst_perm lt _ a b wb wp _).trans
            ((pdqHintStage_fst_perm lt _ a b).trans (pdqBreakStage_fst_perm l a b limit wb))
        split
        · exact stages
        · split
          · exact (ih _ _ _ _ _ _).trans ((partitionEqualGo_fst_perm lt _ a b _).trans stages)
          · split
            · exact (ih _ _ _ _ _ _).trans ((ih _ _ _ _ _ _).trans
                ((partitionGo_fst_perm lt _ a b _).trans stages))
            · exact (ih _ _ _ _ _ _).trans ((ih _ _ _ _ _ _).trans
                ((partitionGo_fst_perm lt _ a b _).trans stages))

theorem goSortSlice_perm (lt : α → α → Bool) (l : List α) :
    List.Perm (goSortSlice lt l) l := by
  simp only [goSortSlice]
  exact pdqsortFuel_perm lt _ l 0 l.length _ true true

theorem goSortSlice_length (lt : α → α → Bool) (l : List α) :
    (goSortSlice lt l).length = l.length :=
  (goSortSlice_perm lt l).length_eq

theorem goSortSlice_mem (lt : α → α → Bool) (l : List α) (x : α) :
    x ∈ goSortSlice lt l ↔ x ∈ l :=
  (goSortSlice_perm lt l).mem_iff

/-! ## The insertion sort equals its list-level form -/

theorem getD_append_len (pre : List α) (z : α) (rest : List α) (d : α) :
    (pre ++ z :: rest).getD pre.length d = z := by
  induction pre with
  | nil => simp
  | cons p pre ih => simpa using ih

theorem set_append_len (pre : List α) (z : α) (rest : List α) (w : α) :
    (pre ++ z :: rest).set pre.length w = pre ++ w :: rest := by
  induction pre with
  | nil => simp
  | cons p pre ih => simpa using ih

theorem mySwap_adj (ys : List α) (y x : α) (suf : List α) :
    mySwap (ys ++ y :: x :: suf) (ys.length + 1) ys.length = ys ++ x :: y :: suf := by
  have hGj : (ys ++ y :: x :: suf).getD ys.length default = y := getD_append_len ys y _ _
  have hRe : ys ++ y :: x :: suf = (ys ++ [y]) ++ x :: suf := by simp
  have hGl : (ys ++ [y]).length = ys.length + 1 := by simp
  have hGi : (ys ++ y :: x :: suf).getD (ys.length + 1) default = x := by
    rw [hRe, ← hGl]; exact getD_append_len (ys ++ [y]) x _ _
  have hbound : ys.length + 1 < (ys ++ y :: x :: suf).length ∧
      ys.length < (ys ++ y :: x :: suf).length := ⟨by simp, by simp⟩
  have hS1 : (ys ++ y :: x :: suf).set (ys.length + 1) y = ys ++ y :: y :: suf := by
    rw [hRe, ← hGl, set_append_len]; simp
  rw [mySwap, if_pos hbound]
  show ((ys ++ y :: x :: suf).set (ys.length + 1)
      ((ys ++ y :: x :: suf).getD ys.length default)).set ys.length
      ((ys ++ y :: x :: suf).getD (ys.length + 1) default) = ys ++ x :: y :: suf
  rw [hGi, hGj, hS1, set_append_len]

theorem insRev_length (lt : α → α → Bool) (x : α) :
    ∀ rl : List α, (insRev lt x rl).length = rl.length + 1 := by
  intro rl
  induction rl with
  | nil => simp [insRev]
  | cons y t ih =>
    simp only [insRev]
    split
    · simpa using ih
    · simp

theorem goInsertR_length (lt : α → α → Bool) (acc : List α) (x : α) :
    (goInsertR lt acc x).length = acc.length + 1 := by
  simp [goInsertR, insRev_length]

theorem insInner_spec (lt : α → α → Bool) : ∀ (pre : List α) (x : α) (suf : List α),
    insInner lt 0 (pre ++ x :: suf) pre.length = goInsertR lt pre x ++ suf := by
  intro pre
  induction pre using List.reverseRecOn with
  | nil => intro x suf; simp [insInner, goInsertR, insRev]
  | append_singleton ys y ih =>
    intro x suf
    have hGl : (ys ++ [y]).length = ys.length + 1 := by simp
    have hRe : (ys ++ [y]) ++ x :: suf = ys ++ y :: x :: suf := by simp
    have hGi : ((ys ++ [y]) ++ x :: suf).getD (ys.length + 1) default = x := by
      rw [← hGl]; exact getD_append_len (ys ++ [y]) x _ _
    have hGj : ((ys ++ [y]) ++ x :: suf).getD ys.length default = y := by
      rw [hRe]; exact getD_append_len ys y _ _
    have hLA : lessAt lt ((ys ++ [y]) ++ x :: suf) (ys.length + 1) ys.length = lt x y := by
      rw [lessAt, hGi, hGj]
    rw [hGl]
    simp only [insInner]
    by_cases hxy : lt x y = true
    · rw [if_pos ⟨Nat.succ_pos _, by rw [hLA]; exact hxy⟩]
      have hsw : mySwap ((ys ++ [y]) ++ x :: suf) (ys.length + 1) ys.length =
          ys ++ x :: y :: suf := by rw [hRe]; exact mySwap_adj ys y x suf
      rw [hsw]
      have := ih x (y :: suf)
      rw [this]
      simp [goInsertR, insRev, hxy]
    · rw [if_neg (by rw [hLA]; simp [hxy])]
      simp [goInsertR, insRev, hxy, hRe]

theorem insOuter_spec (lt : α → α → Bool) :
    ∀ (rest acc : List α) (fuel : Nat), rest.length ≤ fuel →
    insOuter lt 0 (acc.length + rest.length) (acc ++ rest) acc.length fuel =
      rest.foldl (goInsertR lt) acc := by
  intro rest
  induction rest with
  | nil =>
    intro acc fuel _
    cases fuel with
    | zero => simp [insOuter]
    | succ f => simp [insOuter]
  | cons x t ih =>
    intro acc fuel hf
    cases fuel with
    | zero => simp at hf
    | succ f =>
      simp only [insOuter]
      rw [if_pos (by simp only [List.length_cons]; omega :
        acc.length < acc.length + (x :: t).length)]
      rw [insInner_spec lt acc x t]
      have hlen : (goInsertR lt acc x).length = acc.length + 1 := goInsertR_length lt acc x
      have e1 : acc.length + (x :: t).length = (goInsertR lt acc x).length + t.length := by
        rw [hlen]; simp; omega
      have e2 : acc.length + 1 = (goInsertR lt acc x).length := hlen.symm
      rw [e1, e2, ih (goInsertR lt acc x) f (by simpa using hf)]
      simp

theorem insertionSortGo_eq_golist (lt : α → α → Bool) (l : List α) :
    insertionSortGo lt l 0 l.length = golist lt l := by
  cases l with
  | nil => simp [insertionSortGo, insOuter, golist]
  | cons x t =>
    have h := insOuter_spec lt t [x] (1 + t.length) (by omega)
    have hx : goInsertR lt [] x = [x] := by simp [goInsertR, insRev]
    simp only [insertionSortGo, golist, List.foldl_cons, hx]
    simp only [List.length_cons, List.singleton_append, List.length_singleton] at h ⊢
    rw [show t.length + 1 = 1 + t.length by omega]
    simpa using h

/-! ## The list-level insertion sort: permutation, sortedness, stability -/

theorem insRev_perm (lt : α → α → Bool) (x : α) :
    ∀ rl : List α, List.Perm (insRev lt x rl) (x :: rl) := by
  intro rl
  induction rl with
  | nil => simp [insRev]
  | cons y t ih =>
    simp only [insRev]
    split
    · exact (List.Perm.cons y ih).trans (List.Perm.swap x y t)
    · exact List.Perm.refl _

theorem goInsertR_perm (lt : α → α → Bool) (acc : List α) (x : α) :
    List.Perm (goInsertR lt acc x) (x :: acc) :=
  (List.reverse_perm _).trans ((insRev_perm lt x _).trans
    (List.Perm.cons x (List.reverse_perm _)))

theorem golist_fold_perm (lt : α → α → Bool) :
    ∀ (l acc : List α), List.Perm (l.foldl (goInsertR lt) acc) (acc ++ l) := by
  intro l
  induction l with
  | nil => intro acc; simp
  | cons x t ih =>
    intro acc
    simp only [List.foldl_cons]
    refine (ih _).trans ?_
    refine (List.Perm.append_right t (goInsertR_perm lt acc x)).trans ?_
    exact List.perm_middle.symm

theorem golist_perm (lt : α → α → Bool) (l : List α) :
    List.Perm (golist lt l) l := by
  simpa using golist_fold_perm lt l []

theorem insRev_sorted {β : Type} [Inhabited β] (key : β → ℚ) (x : β) :
    ∀ rl : List β, List.Pairwise (fun p q => key p ≤ key q) rl →
      List.Pairwise (fun p q => key p ≤ key q)
        (insRev (fun a b => decide (key b < key a)) x rl) := by
  intro rl
  induction rl with
  | nil => intro _; simp [insRev]
  | cons y t ih =>
    intro h
    rw [List.pairwise_cons] at h
    simp only [insRev]
    split
    next hxy =>
      have hyx : key y < key x := by simpa using hxy
      rw [List.pairwise_cons]
      refine ⟨?_, ih h.2⟩
      intro z hz
      have hz' := (insRev_perm _ x t).mem_iff.mp hz
      rcases List.mem_cons.mp hz' with hzx | hzt
      · rw [hzx]; exact le_of_lt hyx
      · exact h.1 z hzt
    next hxy =>
      have hxy' : key x ≤ key y := by
        have : ¬ key y < key x := by simpa using hxy
        exact le_of_not_lt this
      rw [List.pairwise_cons]
      refine ⟨?_, List.Pairwise.cons h.1 h.2⟩
      intro z hz
      rcases List.mem_cons.mp hz with hzy | hzt
      · rw [hzy]; exact hxy'
      · exact le_trans hxy' (h.1 z hzt)

theorem goInsertR_sorted {β : Type} [Inhabited β] (key : β → ℚ) (acc : List β) (x : β)
    (h : SortedDescBy key acc) :
    SortedDescBy key (goInsertR (fun a b => decide (key b < key a)) acc x) := by
  rw [SortedDescBy] at h ⊢
  rw [goInsertR, List.pairwise_reverse]
  have hrev : List.Pairwise (fun p q => key p ≤ key q) acc.reverse := by
    rw [List.pairwise_reverse]; exact h
  exact insRev_sorted key x acc.reverse hrev

theorem golist_fold_sorted {β : Type} [Inhabited β] (key : β → ℚ) :
    ∀ (l acc : List β), SortedDescBy key acc →
      SortedDescBy key (l.foldl (goInsertR (fun a b => decide (key b < key a))) acc) := by
  intro l
  induction l with
  | nil => intro acc h; exact h
  | cons x t ih =>
    intro acc h
    simp only [List.foldl_cons]
    exact ih _ (goInsertR_sorted key acc x h)

theorem golist_sorted {β : Type} [Inhabited β] (key : β → ℚ) (l : List β) :
    SortedDescBy key (golist (fun a b => decide (key b < key a)) l) := by
  refine golist_fold_sorted key l [] ?_
  simp [SortedDescBy]

theorem insRev_filter_eq {β : Type} [Inhabited β] (key : β → ℚ) (x : β) (v : ℚ)
    (hx : key x = v) :
    ∀ rl : List β,
      (insRev (fun a b => decide (key b < key a)) x rl).filter (fun p => decide (key p = v)) =
        x :: rl.filter (fun p => decide (key p = v)) := by
  intro rl
  induction rl with
  | nil => simp [insRev, hx]
  | cons y t ih =>
    simp only [insRev]
    split
    next hlt =>
      have hyv : ¬ (key y = v) := by
        have : key y < key x := by simpa using hlt
        rw [hx] at this; exact ne_of_lt this
      simp only [List.filter_cons]
      rw [if_neg (by simpa using hyv)]
      rw [ih]
      rw [if_neg (by simpa using hyv)]
    next hlt =>
      simp only [List.filter_cons]
      rw [if_pos (by simpa using hx)]

theorem insRev_filter_ne {β : Type} [Inhabited β] (key : β → ℚ) (x : β) (v : ℚ)
    (hx : ¬ (key x = v)) :
    ∀ rl : List β,
      (insRev (fun a b => decide (key b < key a)) x rl).filter (fun p => decide (key p = v)) =
        rl.filter (fun p => decide (key p = v)) := by
  intro rl
  induction rl with
  | nil => simp [insRev, hx]
  | cons y t ih =>
    simp only [insRev]
    split
    next hlt =>
      simp only [List.filter_cons]
      rw [ih]
    next hlt =>
      simp only [List.filter_cons]
      rw [if_neg (by simpa using hx)]

theorem goInsertR_filter {β : Type} [Inhabited β] (key : β → ℚ) (acc : List β) (x : β) (v : ℚ) :
    (goInsertR (fun a b => decide (key b < key a)) acc x).filter (fun p => decide (key p = v)) =
      acc.filter (fun p => decide (key p = v)) ++
        (if key x = v then [x] else []) := by
  rw [goInsertR, List.filter_reverse]
  by_cases hx : key x = v
  · rw [insRev_filter_eq key x v hx, if_pos hx]
    simp [List.filter_reverse]
  · rw [insRev_filter_ne key x v hx, if_neg hx]
    simp [List.filter_reverse]

theorem golist_fold_filter {β : Type} [Inhabited β] (key : β → ℚ) (v : ℚ) :
    ∀ (l acc : List β),
      ((l.foldl (goInsertR (fun a b => decide (key b < key a))) acc).filter
        (fun p => decide (key p = v))) =
      acc.filter (fun p => decide (key p = v)) ++ l.filter (fun p => decide (key p = v)) := by
  intro l
  induction l with
  | nil => intro acc; simp
  | cons x t ih =>
    intro acc
    simp only [List.foldl_cons]
    rw [ih, goInsertR_filter]
    by_cases hx : key x = v
    · rw [if_pos hx]
      simp only [List.filter_cons]
      rw [if_pos (by simpa using hx)]
      simp
    · rw [if_neg hx]
      simp only [List.filter_cons]
      rw [if_neg (by simpa using hx)]
      simp

theorem golist_filter {β : Type} [Inhabited β] (key : β → ℚ) (v : ℚ) (l : List β) :
    (golist (fun a b => decide (key b < key a)) l).filter (fun p => decide (key p = v)) =
      l.filter (fun p => decide (key p = v)) := by
  simpa using golist_fold_filter key v l []

/-! ## Claim C1: getTopProcesses -/

theorem goSortSlice_small (lt : α → α → Bool) (l : List α) (h : l.length ≤ 12) :
    goSortSlice lt l = insertionSortGo lt l 0 l.length := by
  show pdqsortFuel lt (l.length + 2) l 0 l.length (bitsLen l.length) true true = _
  rw [show l.length + 2 = (l.length + 1) + 1 from rfl]
  simp only [pdqsortFuel]
  rw [if_pos (show l.length - 0 ≤ 12 by omega)]

theorem topnSmall {β : Type} [Inhabited β] (key : β → ℚ) (P out : List β) (n : Nat)
    (h : P.length ≤ 12)
    (hout : out = if (goSortSlice (fun x y => decide (key y < key x)) P).length < n
       then goSortSlice (fun x y => decide (key y < key x)) P
       else (goSortSlice (fun x y => decide (key y < key x)) P).take n) :
    out.length = min n P.length ∧ SortedDescBy key out ∧ StableOn key P out := by
  have hs : goSortSlice (fun x y => decide (key y < key x)) P =
      golist (fun x y => decide (key y < key x)) P := by
    rw [goSortSlice_small _ _ h, insertionSortGo_eq_golist]
  rw [hs] at hout
  have hperm := golist_perm (fun x y => decide (key y < key x)) P
  have hlen : (golist (fun x y => decide (key y < key x)) P).length = P.length :=
    hperm.length_eq
  have hsort := golist_sorted key P
  have hfil : ∀ v : ℚ,
      (golist (fun x y => decide (key y < key x)) P).filter (fun p => decide (key p = v)) =
        P.filter (fun p => decide (key p = v)) := fun v => golist_filter key v P
  refine ⟨?_, ?_, ?_⟩
  · rw [hout]
    split
    next hlt => rw [hlen] at hlt ⊢; omega
    next hge => rw [List.length_take, hlen]
  · rw [hout]
    split
    · exact hsort
    · exact List.Pairwise.sublist (List.take_sublist n _) hsort
  · intro v
    rw [hout]
    have base : ((golist (fun x y => decide (key y < key x)) P).filter
        (fun p => decide (key p = v))).Sublist (P.filter (fun p => decide (key p = v))) := by
      rw [hfil]
    split
    · exact base
    · exact (List.Sublist.filter _ (List.take_sublist n _)).trans base

set_option maxRecDepth 20000 in
/-- C1 fails on the code: `sort.Slice` is pattern-defeating quicksort, which
is not stable once the slice is longer than 12 (below that it is insertion
sort).  On thirteen processes with twelve ties the tie order is scrambled. -/
theorem claimC1_counterexample : ¬ ClaimC1At exTie13 ("cpu") 10 := by
  intro h
  have hst := h.2.2 5
  revert hst
  decide

/-- C1 amended: for at most twelve process snapshots (where Go `sort.Slice`
runs plain insertion sort) the top-N output has length `min n |P|`, is sorted
descending by the selected metric, and ties keep the input order. -/
theorem getTopProcesses_small_spec (P : List ProcessInfo) (sortBy : String) (n : Nat)
    (hsel : sortBy = "cpu" ∨ sortBy = "memory") (hlen : P.length ≤ 12) :
    ClaimC1At P sortBy n := by
  rcases hsel with h | h <;> subst h
  · have hm : metricOf ("cpu") = ProcessInfo.cpuPercent := by
      funext p; simp [metricOf]
    have hout : getTopProcesses P ("cpu") n =
        (if (goSortSlice (fun x y => decide (y.cpuPercent < x.cpuPercent)) P).length < n
         then goSortSlice (fun x y => decide (y.cpuPercent < x.cpuPercent)) P
         else (goSortSlice (fun x y => decide (y.cpuPercent < x.cpuPercent)) P).take n) := rfl
    simp only [ClaimC1At]
    rw [hm, hout]
    exact topnSmall ProcessInfo.cpuPercent P _ n hlen rfl
  · have hm : metricOf ("memory") = ProcessInfo.memPercent := by
      funext p; simp [metricOf]
    have hout : getTopProcesses P ("memory") n =
        (if (goSortSlice (fun x y => decide (y.memPercent < x.memPercent)) P).length < n
         then goSortSlice (fun x y => decide (y.memPercent < x.memPercent)) P
         else (goSortSlice (fun x y => decide (y.memPercent < x.memPercent)) P).take n) := rfl
    simp only [ClaimC1At]
    rw [hm, hout]
    exact topnSmall ProcessInfo.memPercent P _ n hlen rfl

/-- Witness for the amended C1 at a concrete input. -/
theorem getTopProcesses_small_spec_witness :
    ([exProc 1 5, exProc 2 7].length ≤ 12) ∧ ClaimC1At [exProc 1 5, exProc 2 7] ("cpu") 1 :=
  ⟨by decide, getTopProcesses_small_spec [exProc 1 5, exProc 2 7] ("cpu") 1 (Or.inl rfl)
    (by decide)⟩

/-! ## Claim C2: the refresh-interval change never reaches the loop ticker -/

/-- C2 fails on the code: from the initial state, a `'+'` keypress lowers the
stored refresh interval to 2 s, but the ticker driving the `select` loop still
has its original 3 s period — the `time.NewTicker` created inside
`handleKeyPress` is a local variable whose deferred `Stop` runs when the
function returns, and the ticker of `main` is never reset. -/
theorem refreshTicker_stale :
    (loopStep initialLoop (LoopEvent.key '+')).1.app.refreshRate = 2 * second ∧
    (loopStep initialLoop (LoopEvent.key '+')).1.tickerPeriod = 3 * second ∧
    (loopStep initialLoop (LoopEvent.key '+')).1.tickerPeriod ≠
      (loopStep initialLoop (LoopEvent.key '+')).1.app.refreshRate := by
  decide

/-! ## Claim C7: the refresh interval stays in [1 s, 10 s] -/

theorem toggleLogging_rate (a : App) : (toggleLogging a).refreshRate = a.refreshRate := by
  rw [toggleLogging]
  by_cases h : a.logToFile
  · rw [if_pos h]
  · rw [if_neg h]

theorem handleKey_rate_k (a : App) (c : Char) (k : Nat) (hk1 : 1 ≤ k) (hk2 : k ≤ 10)
    (hr : a.refreshRate = k * second) :
    ∃ kk, 1 ≤ kk ∧ kk ≤ 10 ∧ ((handleKeyPress a c).1).refreshRate = kk * second := by
  have hsec : second = 1000000000 := rfl
  rw [handleKeyPress]
  by_cases hc1 : c = 'q' ∨ c = 'Q'
  · rw [if_pos hc1]; exact ⟨k, hk1, hk2, hr⟩
  rw [if_neg hc1]
  by_cases hc2 : c = 'h' ∨ c = 'H' ∨ c = '?'
  · rw [if_pos hc2]; exact ⟨k, hk1, hk2, hr⟩
  rw [if_neg hc2]
  by_cases hc3 : c = '1'
  · rw [if_pos hc3]; exact ⟨k, hk1, hk2, hr⟩
  rw [if_neg hc3]
  by_cases hc4 : c = '2'
  · rw [if_pos hc4]; exact ⟨k, hk1, hk2, hr⟩
  rw [if_neg hc4]
  by_cases hc5 : c = '3'
  · rw [if_pos hc5]; exact ⟨k, hk1, hk2, hr⟩
  rw [if_neg hc5]
  by_cases hc6 : c = '4'
  · rw [if_pos hc6]; exact ⟨k, hk1, hk2, hr⟩
  rw [if_neg hc6]
  by_cases hc7 : c = '5'
  · rw [if_pos hc7]; exact ⟨k, hk1, hk2, hr⟩
  rw [if_neg hc7]
  by_cases hc8 : c = 'p' ∨ c = 'P'
  · rw [if_pos hc8]; exact ⟨k, hk1, hk2, hr⟩
  rw [if_neg hc8]
  by_cases hc9 : c = 'c' ∨ c = 'C'
  · rw [if_pos hc9]; exact ⟨k, hk1, hk2, hr⟩
  rw [if_neg hc9]
  by_cases hc10 : c = 'l' ∨ c = 'L'
  · rw [if_pos hc10]
    refine ⟨k, hk1, hk2, ?_⟩
    show (toggleLogging a).refreshRate = k * second
    rw [toggleLogging_rate, hr]
  rw [if_neg hc10]
  by_cases hc11 : c = 'e' ∨ c = 'E'
  · rw [if_pos hc11]; exact ⟨k, hk1, hk2, hr⟩
  rw [if_neg hc11]
  by_cases hc12 : c = 'r' ∨ c = 'R'
  · rw [if_pos hc12]; exact ⟨k, hk1, hk2, hr⟩
  rw [if_neg hc12]
  by_cases hc13 : c = '+'
  · rw [if_pos hc13]
    by_cases hlt : second < a.refreshRate
    · rw [if_pos hlt]
      rw [hr, hsec] at hlt
      refine ⟨k - 1, by omega, by omega, ?_⟩
      show a.refreshRate - second = (k - 1) * second
      rw [hr, hsec]
      omega
    · rw [if_neg hlt]; exact ⟨k, hk1, hk2, hr⟩
  rw [if_neg hc13]
  by_cases hc14 : c = '-'
  · rw [if_pos hc14]
    by_cases hlt : a.refreshRate < 10 * second
    · rw [if_pos hlt]
      rw [hr, hsec] at hlt
      refine ⟨k + 1, by omega, ?_, ?_⟩
      · omega
      · show a.refreshRate + second = (k + 1) * second
        rw [hr, hsec]
        omega
    · rw [if_neg hlt]; exact ⟨k, hk1, hk2, hr⟩
  rw [if_neg hc14]
  exact ⟨k, hk1, hk2, hr⟩

theorem applyKeys_rate_k : ∀ (ks : List Char) (a : App) (k : Nat), 1 ≤ k → k ≤ 10 →
    a.refreshRate = k * second →
    ∃ kk, 1 ≤ kk ∧ kk ≤ 10 ∧ (applyKeys a ks).refreshRate = kk * second := by
  intro ks
  induction ks with
  | nil => intro a k h1 h2 hr; exact ⟨k, h1, h2, hr⟩
  | cons c t ih =>
    intro a k h1 h2 hr
    obtain ⟨kk, hkk1, hkk2, hkk⟩ := handleKey_rate_k a c k h1 h2 hr
    simp only [applyKeys, List.foldl_cons]
    exact ih _ kk hkk1 hkk2 hkk

/-- C7: any sequence of `'+'`/`'-'` keys from the initial state keeps the
refresh interval in [1 s, 10 s]; at the 10 s boundary the interval-increasing
key `'-'` leaves it at 10 s (and at 1 s the interval-decreasing key `'+'`
leaves it at 1 s) — clamped, no overflow. -/
theorem refreshRate_clamped (ks : List Char) (hks : ∀ k ∈ ks, k = '+' ∨ k = '-') :
    (second ≤ (applyKeys initialApp ks).refreshRate ∧
     (applyKeys initialApp ks).refreshRate ≤ 10 * second) ∧
    (∀ a : App, a.refreshRate = 10 * second →
      ((handleKeyPress a '-').1).refreshRate = 10 * second) ∧
    (∀ a : App, a.refreshRate = second →
      ((handleKeyPress a '+').1).refreshRate = second) := by
  refine ⟨?_, ?_, ?_⟩
  · obtain ⟨kk, hkk1, hkk2, hkk⟩ :=
      applyKeys_rate_k ks initialApp 3 (by omega) (by omega) rfl
    rw [hkk]
    have hsec : second = 1000000000 := rfl
    rw [hsec]
    constructor <;> omega
  · intro a h
    rw [handleKeyPress]
    rw [if_neg (by decide), if_neg (by decide), if_neg (by decide), if_neg (by decide),
      if_neg (by decide), if_neg (by decide), if_neg (by decide), if_neg (by decide),
      if_neg (by decide), if_neg (by decide), if_neg (by decide), if_neg (by decide),
      if_neg (by decide), if_pos rfl, h, if_neg (lt_irrefl _)]
    exact h
  · intro a h
    rw [handleKeyPress]
    rw [if_neg (by decide), if_neg (by decide), if_neg (by decide), if_neg (by decide),
      if_neg (by decide), if_neg (by decide), if_neg (by decide), if_neg (by decide),
      if_neg (by decide), if_neg (by decide), if_neg (by decide), if_neg (by decide),
      if_pos rfl, h, if_neg (lt_irrefl _)]
    exact h

/-- Witness for C7 at the one-key sequence `['+']`. -/
theorem refreshRate_clamped_witness :
    (∀ k ∈ (['+'] : List Char), k = '+' ∨ k = '-') ∧
    ((second ≤ (applyKeys initialApp ['+']).refreshRate ∧
      (applyKeys initialApp ['+']).refreshRate ≤ 10 * second) ∧
     (∀ a : App, a.refreshRate = 10 * second →
       ((handleKeyPress a '-').1).refreshRate = 10 * second) ∧
     (∀ a : App, a.refreshRate = second →
       ((handleKeyPress a '+').1).refreshRate = second)) :=
  ⟨by decide, refreshRate_clamped ['+'] (by decide)⟩

/-! ## Claim C9: the command-line field -/

/-- C9: an unavailable or empty command line falls back to the process name;
a command line longer than 100 characters is cut to its first 100 characters
followed by the ellipsis marker. -/
theorem commandLine_spec (name : String) :
    commandLineOf name none = name ∧
    commandLineOf name (some ("")) = name ∧
    (∀ c : String, 100 < c.length → commandLineOf name (some c) = c.take 100 ++ "...") := by
  refine ⟨rfl, rfl, ?_⟩
  intro c hc
  simp only [commandLineOf]
  rw [if_pos (by omega), if_pos hc]

/-- Witness for C9 at a 101-character command line. -/
theorem commandLine_spec_witness :
    (100 < longCmd.length) ∧
      commandLineOf ("init") (some longCmd) = longCmd.take 100 ++ "..." :=
  ⟨by decide, (commandLine_spec ("init")).2.2 longCmd (by decide)⟩

/-! ## Network helper lemmas -/

theorem statsStep_fst (now : ℚ) (acc : List NetworkInterface × Nat × Nat × Nat)
    (c : IOCounter) : (statsStep now acc c).1 = acc.1 ++ [mkIface c now] := rfl

theorem statsFold_interfaces (now : ℚ) :
    ∀ (cs : List IOCounter) (acc : List NetworkInterface × Nat × Nat × Nat),
    (cs.foldl (statsStep now) acc).1 = acc.1 ++ cs.map (fun c => mkIface c now) := by
  intro cs
  induction cs with
  | nil => intro acc; simp
  | cons c t ih =>
    intro acc
    simp only [List.foldl_cons]
    rw [ih, statsStep_fst]
    simp

theorem statsStep_cond (c : IOCounter) (now : ℚ) :
    (!(isLoopbackInterface c.name) && (mkIface c now).hasTraffic) = nonLoopbackActive c := rfl

theorem statsFold_totals (now : ℚ) :
    ∀ (cs : List IOCounter) (acc : List NetworkInterface × Nat × Nat × Nat),
    (cs.foldl (statsStep now) acc).2 =
      (((cs.filter nonLoopbackActive).map IOCounter.bytesSent).foldl addMod64 acc.2.1,
       ((cs.filter nonLoopbackActive).map IOCounter.bytesRecv).foldl addMod64 acc.2.2.1,
       acc.2.2.2 + (cs.filter nonLoopbackActive).length) := by
  intro cs
  induction cs with
  | nil => intro acc; simp
  | cons c t ih =>
    intro acc
    simp only [List.foldl_cons, List.filter_cons]
    by_cases hc : nonLoopbackActive c = true
    · rw [if_pos hc, ih]
      have hstep : (statsStep now acc c).2 =
          (addMod64 acc.2.1 c.bytesSent, addMod64 acc.2.2.1 c.bytesRecv, acc.2.2.2 + 1) := by
        show (if !(isLoopbackInterface c.name) && (mkIface c now).hasTraffic then _ else _) = _
        rw [statsStep_cond, if_pos hc]
      rw [hstep]
      simp [Nat.add_comm, Nat.add_assoc, Nat.add_left_comm]
    · rw [if_neg hc, ih]
      have hstep : (statsStep now acc c).2 = acc.2 := by
        show (if !(isLoopbackInterface c.name) && (mkIface c now).hasTraffic then _ else _) = _
        rw [statsStep_cond, if_neg hc]
      rw [hstep]

theorem GetNetworkStats_interfaces_perm (cs : List IOCounter) (conns : Nat) (now : ℚ) :
    List.Perm (GetNetworkStats cs conns now).interfaces (cs.map (fun c => mkIface c now)) := by
  show List.Perm (goSortSlice trafficGt (cs.foldl (statsStep now) ([], 0, 0, 0)).1) _
  rw [statsFold_interfaces]
  simpa using goSortSlice_perm trafficGt (cs.map (fun c => mkIface c now))

theorem GetNetworkStats_names_nodup (cs : List IOCounter) (conns : Nat) (now : ℚ)
    (hnd : (cs.map IOCounter.name).Nodup) :
    ((GetNetworkStats cs conns now).interfaces.map NetworkInterface.name).Nodup := by
  have hperm := (GetNetworkStats_interfaces_perm cs conns now).map NetworkInterface.name
  rw [hperm.nodup_iff]
  have : (cs.map (fun c => mkIface c now)).map NetworkInterface.name =
      cs.map IOCounter.name := by
    rw [List.map_map]; rfl
  rw [this]
  exact hnd

theorem GetNetworkStats_mem_iface (cs : List IOCounter) (conns : Nat) (now : ℚ)
    (c : IOCounter) (hc : c ∈ cs) :
    mkIface c now ∈ (GetNetworkStats cs conns now).interfaces := by
  rw [(GetNetworkStats_interfaces_perm cs conns now).mem_iff]
  exact List.mem_map_of_mem _ hc

theorem foldStore_notmem :
    ∀ (l : List NetworkInterface) (m : String → Option NetworkInterface) (n : String),
    (∀ i ∈ l, i.name ≠ n) → (l.foldl updStore m) n = m n := by
  intro l
  induction l with
  | nil => intro m n _; rfl
  | cons i t ih =>
    intro m n h
    simp only [List.foldl_cons]
    rw [ih _ n (fun j hj => h j (List.mem_cons_of_mem i hj))]
    rw [updStore, if_neg]
    intro he
    exact h i (List.mem_cons_self i t) he.symm

theorem foldStore_mem :
    ∀ (l : List NetworkInterface) (m : String → Option NetworkInterface) (i : NetworkInterface),
    (l.map NetworkInterface.name).Nodup → i ∈ l → (l.foldl updStore m) i.name = some i := by
  intro l
  induction l with
  | nil => intro m i _ hi; simp at hi
  | cons j t ih =>
    intro m i hnd hi
    rw [List.map_cons, List.nodup_cons] at hnd
    rcases List.mem_cons.mp hi with hij | hit
    · subst hij
      simp only [List.foldl_cons]
      rw [foldStore_notmem t _ i.name]
      · rw [updStore, if_pos rfl]
      · intro x hx he
        exact hnd.1 (he ▸ List.mem_map_of_mem NetworkInterface.name hx)
    · simp only [List.foldl_cons]
      exact ih _ i hnd.2 hit

theorem foldAppendSome {β : Type} (f : β → Option NetworkSpeed) :
    ∀ (l : List β) (acc : List NetworkSpeed),
    l.foldl (appendSome f) acc = acc ++ l.filterMap f := by
  intro l
  induction l with
  | nil => intro acc; simp
  | cons x t ih =>
    intro acc
    simp only [List.foldl_cons]
    rw [ih]
    cases hfx : f x
    · simp [appendSome, hfx]
    · simp [appendSome, hfx]

/-! ## Claim C3: non-positive elapsed time -/

/-- C3: with an initialized store and `Δt ≤ 0`, `GetNetworkSpeeds` returns the
empty list and leaves the package state (store and last-read time) untouched;
a later call therefore still diffs against the original baseline. -/
theorem getNetworkSpeeds_nonpositive_dt (st : NetState) (cs : List IOCounter) (conns : Nat)
    (now : ℚ) (m : String → Option NetworkInterface)
    (hm : st.previousNetStats = some m) (hdt : now - st.lastNetworkRead ≤ 0) :
    GetNetworkSpeeds st cs conns now = ([], st) := by
  simp only [GetNetworkSpeeds, hm]
  rw [if_pos hdt]

/-- Witness for C3: a second poll arriving at the same instant. -/
theorem getNetworkSpeeds_nonpositive_dt_witness :
    (stWithEth.previousNetStats = some ethStoreFun ∧
      (0 : ℚ) - stWithEth.lastNetworkRead ≤ 0) ∧
    GetNetworkSpeeds stWithEth [wlanCounter] 0 0 = ([], stWithEth) :=
  ⟨⟨rfl, by norm_num [stWithEth]⟩,
   getNetworkSpeeds_nonpositive_dt stWithEth [wlanCounter] 0 0 ethStoreFun rfl
     (by norm_num [stWithEth])⟩

/-! ## Claim C4: the first call seeds the baseline -/

/-- C4: on the first-ever call (nil store), `GetNetworkSpeeds` returns the
empty list and seeds the store with every polled interface and the call
time. -/
theorem getNetworkSpeeds_first (st : NetState) (cs : List IOCounter) (conns : Nat) (now : ℚ)
    (hst : st.previousNetStats = none)
    (hnd : (cs.map IOCounter.name).Nodup) :
    (GetNetworkSpeeds st cs conns now).1 = [] ∧
    (GetNetworkSpeeds st cs conns now).2.lastNetworkRead = now ∧
    ∃ m, (GetNetworkSpeeds st cs conns now).2.previousNetStats = some m ∧
      (∀ c ∈ cs, m c.name = some (mkIface c now)) ∧
      (∀ n : String, (∀ c ∈ cs, c.name ≠ n) → m n = none) := by
  have hred : GetNetworkSpeeds st cs conns now =
      ([], { previousNetStats :=
               some ((GetNetworkStats cs conns now).interfaces.foldl updStore emptyStore)
             lastNetworkRead := now }) := by
    simp only [GetNetworkSpeeds, hst]
  rw [hred]
  refine ⟨rfl, rfl, _, rfl, ?_, ?_⟩
  · intro c hc
    have hmem : mkIface c now ∈ (GetNetworkStats cs conns now).interfaces :=
      GetNetworkStats_mem_iface cs conns now c hc
    exact foldStore_mem (GetNetworkStats cs conns now).interfaces emptyStore
      (mkIface c now) (GetNetworkStats_names_nodup cs conns now hnd) hmem
  · intro n hn
    have hside : ∀ i ∈ (GetNetworkStats cs conns now).interfaces, i.name ≠ n := by
      intro i hi
      rw [(GetNetworkStats_interfaces_perm cs conns now).mem_iff] at hi
      obtain ⟨c, hc, hci⟩ := List.mem_map.mp hi
      rw [← hci]
      exact hn c hc
    rw [foldStore_notmem (GetNetworkStats cs conns now).interfaces emptyStore n hside]
    rfl

/-- Witness for C4 at a single-interface poll. -/
theorem getNetworkSpeeds_first_witness :
    (stEmptyNet.previousNetStats = none ∧
      (([wlanCounter] : List IOCounter).map IOCounter.name).Nodup) ∧
    ((GetNetworkSpeeds stEmptyNet [wlanCounter] 0 1).1 = [] ∧
     (GetNetworkSpeeds stEmptyNet [wlanCounter] 0 1).2.lastNetworkRead = 1 ∧
     ∃ m, (GetNetworkSpeeds stEmptyNet [wlanCounter] 0 1).2.previousNetStats = some m ∧
       (∀ c ∈ ([wlanCounter] : List IOCounter), m c.name = some (mkIface c 1)) ∧
       (∀ n : String, (∀ c ∈ ([wlanCounter] : List IOCounter), c.name ≠ n) → m n = none)) :=
  ⟨⟨rfl, by decide⟩, getNetworkSpeeds_first stEmptyNet [wlanCounter] 0 1 rfl (by decide)⟩

/-! ## Claim C5: the store after a non-first call -/

set_option maxRecDepth 20000 in
/-- C5 fails on the code: the update loop only overwrites or adds the names
present in the current poll, so an interface absent from the poll (here eth0,
while only wlan0 was polled) keeps its stale entry in the store. -/
theorem claimC5_counterexample : ¬ ClaimC5At stWithEth [wlanCounter] 0 1 := by
  intro h
  have hpf : (GetNetworkSpeeds stWithEth [wlanCounter] 0 1).2.previousNetStats =
      some ((GetNetworkStats [wlanCounter] 0 1).interfaces.foldl updStore ethStoreFun) := by
    simp only [GetNetworkSpeeds, show stWithEth.previousNetStats = some ethStoreFun from rfl]
    rw [if_neg (by norm_num [stWithEth] : ¬((1 : ℚ) - stWithEth.lastNetworkRead ≤ 0))]
  obtain ⟨c, hc, hcn⟩ := h _ hpf ("eth0") (by decide)
  rw [List.mem_singleton] at hc
  subst hc
  exact absurd hcn (by decide)

/-- C5 amended: after a non-first call with positive elapsed time, the store
maps every polled interface to its new counters (even ones filtered out of
the output) and the read time is updated; entries for interfaces absent from
the poll are retained unchanged (not removed). -/
theorem getNetworkSpeeds_update_spec (st : NetState) (cs : List IOCounter) (conns : Nat)
    (now : ℚ) (prev : String → Option NetworkInterface)
    (hst : st.previousNetStats = some prev)
    (hdt : 0 < now - st.lastNetworkRead)
    (hnd : (cs.map IOCounter.name).Nodup) :
    (GetNetworkSpeeds st cs conns now).2.lastNetworkRead = now ∧
    ∃ m, (GetNetworkSpeeds st cs conns now).2.previousNetStats = some m ∧
      (∀ c ∈ cs, m c.name = some (mkIface c now)) ∧
      (∀ n : String, (∀ c ∈ cs, c.name ≠ n) → m n = prev n) := by
  have hred : (GetNetworkSpeeds st cs conns now).2 =
      { previousNetStats :=
          some ((GetNetworkStats cs conns now).interfaces.foldl updStore prev)
        lastNetworkRead := now } := by
    simp only [GetNetworkSpeeds, hst]
    rw [if_neg (not_le.mpr hdt)]
  rw [hred]
  refine ⟨rfl, _, rfl, ?_, ?_⟩
  · intro c hc
    have hmem : mkIface c now ∈ (GetNetworkStats cs conns now).interfaces :=
      GetNetworkStats_mem_iface cs conns now c hc
    exact foldStore_mem (GetNetworkStats cs conns now).interfaces prev
      (mkIface c now) (GetNetworkStats_names_nodup cs conns now hnd) hmem
  · intro n hn
    have hside : ∀ i ∈ (GetNetworkStats cs conns now).interfaces, i.name ≠ n := by
      intro i hi
      rw [(GetNetworkStats_interfaces_perm cs conns now).mem_iff] at hi
      obtain ⟨c, hc, hci⟩ := List.mem_map.mp hi
      rw [← hci]
      exact hn c hc
    exact foldStore_notmem (GetNetworkStats cs conns now).interfaces prev n hside

/-- Witness for the amended C5. -/
theorem getNetworkSpeeds_update_spec_witness :
    (stWithEth.previousNetStats = some ethStoreFun ∧
      (0 : ℚ) < 1 - stWithEth.lastNetworkRead ∧
      (([wlanCounter] : List IOCounter).map IOCounter.name).Nodup) ∧
    ((GetNetworkSpeeds stWithEth [wlanCounter] 0 1).2.lastNetworkRead = 1 ∧
     ∃ m, (GetNetworkSpeeds stWithEth [wlanCounter] 0 1).2.previousNetStats = some m ∧
       (∀ c ∈ ([wlanCounter] : List IOCounter), m c.name = some (mkIface c 1)) ∧
       (∀ n : String, (∀ c ∈ ([wlanCounter] : List IOCounter), c.name ≠ n) →
         m n = ethStoreFun n)) :=
  ⟨⟨rfl, by norm_num [stWithEth], by decide⟩,
   getNetworkSpeeds_update_spec stWithEth [wlanCounter] 0 1 ethStoreFun rfl
     (by norm_num [stWithEth]) (by decide)⟩

/-! ## Claim C6: loopback interfaces -/

set_option maxRecDepth 20000 in
/-- C6 fails as stated: a loopback interface with traffic is excluded from
the totals (as claimed) and is present in `NetworkStats.Interfaces`, but the
per-interface listing the network view displays is
`GetTopNetworkInterfaces _ 8`, which filters loopback out. -/
theorem claimC6_counterexample : ¬ ClaimC6At [loCounter] 0 1 := by
  intro h
  have hmem := h.2 loCounter (List.mem_singleton.mpr rfl) (by decide)
  exact absurd hmem (by decide)

/-- C6 amended: loopback rows are excluded from the aggregate totals
(`TotalSent`, `TotalRecv`, `ActiveIfaces` accumulate exactly over the
non-loopback rows with traffic), every polled row — loopback included — is
present in the `Interfaces` sequence, and the top-interfaces listing used for
display contains no loopback interface. -/
theorem networkStats_loopback_spec (cs : List IOCounter) (conns : Nat) (now : ℚ) (lim : Nat) :
    ((GetNetworkStats cs conns now).totalSent =
      ((cs.filter nonLoopbackActive).map IOCounter.bytesSent).foldl addMod64 0 ∧
     (GetNetworkStats cs conns now).totalRecv =
      ((cs.filter nonLoopbackActive).map IOCounter.bytesRecv).foldl addMod64 0 ∧
     (GetNetworkStats cs conns now).activeIfaces = (cs.filter nonLoopbackActive).length) ∧
    (∀ c ∈ cs, mkIface c now ∈ (GetNetworkStats cs conns now).interfaces) ∧
    (∀ i ∈ GetTopNetworkInterfaces (GetNetworkStats cs conns now).interfaces lim,
      isLoopbackInterface i.name = false) := by
  have h := statsFold_totals now cs ([], 0, 0, 0)
  refine ⟨⟨?_, ?_, ?_⟩, ?_, ?_⟩
  · show (cs.foldl (statsStep now) ([], 0, 0, 0)).2.1 = _
    rw [h]
  · show (cs.foldl (statsStep now) ([], 0, 0, 0)).2.2.1 = _
    rw [h]
  · show (cs.foldl (statsStep now) ([], 0, 0, 0)).2.2.2 = _
    rw [h]
    simp
  · intro c hc
    exact GetNetworkStats_mem_iface cs conns now c hc
  · intro i hi
    simp only [GetTopNetworkInterfaces] at hi
    have hmem : i ∈ goSortSlice trafficGt ((GetNetworkStats cs conns now).interfaces.filter
        (fun iface => !(isLoopbackInterface iface.name) && iface.hasTraffic)) := by
      split at hi
      · exact hi
      · exact List.mem_of_mem_take hi
    rw [goSortSlice_mem] at hmem
    have hpred := (List.mem_filter.mp hmem).2
    simp only [Bool.and_eq_true, Bool.not_eq_true'] at hpred
    exact hpred.1

/-! ## Claims C8 and C10: the speed loop -/

theorem speedFn_eq_some (prev : String → Option NetworkInterface) (td now : ℚ)
    (cur : NetworkInterface) (s : NetworkSpeed) :
    speedFn prev td now cur = some s ↔
    ∃ q, prev cur.name = some q ∧
      s = { interface := cur.name
            uploadKBps := ((sub64 cur.bytesSent q.bytesSent : Nat) : ℚ) / td / 1024
            downloadKBps := ((sub64 cur.bytesRecv q.bytesRecv : Nat) : ℚ) / td / 1024
            timestamp := now } ∧
      ((1 : ℚ)/10 < ((sub64 cur.bytesSent q.bytesSent : Nat) : ℚ) / td / 1024 ∨
       (1 : ℚ)/10 < ((sub64 cur.bytesRecv q.bytesRecv : Nat) : ℚ) / td / 1024) := by
  cases hq : prev cur.name with
  | none => simp [speedFn, hq]
  | some q =>
    simp only [speedFn, hq]
    by_cases hg : (1 : ℚ)/10 < ((sub64 cur.bytesSent q.bytesSent : Nat) : ℚ) / td / 1024 ∨
        (1 : ℚ)/10 < ((sub64 cur.bytesRecv q.bytesRecv : Nat) : ℚ) / td / 1024
    · rw [if_pos hg]
      constructor
      · intro hsome
        exact ⟨q, rfl, (Option.some.inj hsome).symm, hg⟩
      · rintro ⟨q', hq', hs, hg'⟩
        have hqq : q = q' := Option.some.inj hq'
        subst hqq
        rw [hs]
    · rw [if_neg hg]
      constructor
      · intro hnone
        exact absurd hnone (by simp)
      · rintro ⟨q', hq', hs, hg'⟩
        have hqq : q = q' := Option.some.inj hq'
        subst hqq
        exact absurd hg' hg

/-- The speed point an interface contributes is in the output exactly when a
direction clears the 0.1 KB/s gate (general helper behind C8 and C10). -/
theorem speedPoint_mem_iff (st : NetState) (cs : List IOCounter) (conns : Nat) (now : ℚ)
    (prev : String → Option NetworkInterface)
    (hst : st.previousNetStats = some prev)
    (hdt : 0 < now - st.lastNetworkRead)
    (hnd : (cs.map IOCounter.name).Nodup)
    (c : IOCounter) (hc : c ∈ cs) (p : NetworkInterface) (hp : prev c.name = some p) :
    (({ interface := c.name
        uploadKBps :=
          ((sub64 c.bytesSent p.bytesSent : Nat) : ℚ) / (now - st.lastNetworkRead) / 1024
        downloadKBps :=
          ((sub64 c.bytesRecv p.bytesRecv : Nat) : ℚ) / (now - st.lastNetworkRead) / 1024
        timestamp := now } : NetworkSpeed) ∈ (GetNetworkSpeeds st cs conns now).1) ↔
    ((1 : ℚ)/10 <
        ((sub64 c.bytesSent p.bytesSent : Nat) : ℚ) / (now - st.lastNetworkRead) / 1024 ∨
     (1 : ℚ)/10 <
        ((sub64 c.bytesRecv p.bytesRecv : Nat) : ℚ) / (now - st.lastNetworkRead) / 1024) := by
  have hout : (GetNetworkSpeeds st cs conns now).1 =
      goSortSlice speedGt ((GetNetworkStats cs conns now).interfaces.foldl
        (appendSome (speedFn prev (now - st.lastNetworkRead) now)) []) := by
    simp only [GetNetworkSpeeds, hst]
    rw [if_neg (not_le.mpr hdt)]
  rw [hout, goSortSlice_mem, foldAppendSome, List.nil_append, List.mem_filterMap]
  constructor
  · rintro ⟨i, hi, heq⟩
    rw [(GetNetworkStats_interfaces_perm cs conns now).mem_iff] at hi
    obtain ⟨c', hc', hic⟩ := List.mem_map.mp hi
    rw [speedFn_eq_some] at heq
    obtain ⟨q, hq, hs, hg⟩ := heq
    have hname : c.name = i.name := congrArg NetworkSpeed.interface hs
    have hiname : i.name = c'.name := by rw [← hic]; rfl
    have hcc : c' = c :=
      List.inj_on_of_nodup_map hnd hc' hc (by rw [← hiname, ← hname])
    have hq' : prev c.name = some q := by rw [hname]; exact hq
    rw [hp] at hq'
    have hqp : p = q := Option.some.inj hq'
    rw [hqp]
    have hic' : mkIface c now = i := by rw [← hcc]; exact hic
    rw [← hic'] at hg
    exact hg
  · intro hg
    refine ⟨mkIface c now, ?_, ?_⟩
    · rw [(GetNetworkStats_interfaces_perm cs conns now).mem_iff]
      exact List.mem_map_of_mem _ hc
    · rw [speedFn_eq_some]
      exact ⟨p, hp, rfl, hg⟩

/-- C8: with a baseline entry and positive elapsed time, an interface's rate
point (carrying both directions) appears in the output exactly when its
upload or its download exceeds 0.1 KB/s. -/
theorem getNetworkSpeeds_gate_iff (st : NetState) (cs : List IOCounter) (conns : Nat)
    (now : ℚ) (prev : String → Option NetworkInterface)
    (hst : st.previousNetStats = some prev)
    (hdt : 0 < now - st.lastNetworkRead)
    (hnd : (cs.map IOCounter.name).Nodup)
    (c : IOCounter) (hc : c ∈ cs) (p : NetworkInterface) (hp : prev c.name = some p) :
    (({ interface := c.name
        uploadKBps :=
          ((sub64 c.bytesSent p.bytesSent : Nat) : ℚ) / (now - st.lastNetworkRead) / 1024
        downloadKBps :=
          ((sub64 c.bytesRecv p.bytesRecv : Nat) : ℚ) / (now - st.lastNetworkRead) / 1024
        timestamp := now } : NetworkSpeed) ∈ (GetNetworkSpeeds st cs conns now).1) ↔
    ((1 : ℚ)/10 <
        ((sub64 c.bytesSent p.bytesSent : Nat) : ℚ) / (now - st.lastNetworkRead) / 1024 ∨
     (1 : ℚ)/10 <
        ((sub64 c.bytesRecv p.bytesRecv : Nat) : ℚ) / (now - st.lastNetworkRead) / 1024) :=
  speedPoint_mem_iff st cs conns now prev hst hdt hnd c hc p hp

/-- Witness for C8: eth0 advanced by 4096 sent / 1024 received bytes over one
second clears the gate, and its point is in the output. -/
theorem getNetworkSpeeds_gate_iff_witness :
    (stWithEth.previousNetStats = some ethStoreFun ∧
      (0 : ℚ) < 1 - stWithEth.lastNetworkRead ∧
      (([ethNewCounter] : List IOCounter).map IOCounter.name).Nodup ∧
      ethNewCounter ∈ ([ethNewCounter] : List IOCounter) ∧
      ethStoreFun ethNewCounter.name = some ethOldIface) ∧
    (({ interface := ethNewCounter.name
        uploadKBps := ((sub64 ethNewCounter.bytesSent ethOldIface.bytesSent : Nat) : ℚ) /
          (1 - stWithEth.lastNetworkRead) / 1024
        downloadKBps := ((sub64 ethNewCounter.bytesRecv ethOldIface.bytesRecv : Nat) : ℚ) /
          (1 - stWithEth.lastNetworkRead) / 1024
        timestamp := 1 } : NetworkSpeed) ∈
        (GetNetworkSpeeds stWithEth [ethNewCounter] 0 1).1 ↔
      ((1 : ℚ)/10 < ((sub64 ethNewCounter.bytesSent ethOldIface.bytesSent : Nat) : ℚ) /
          (1 - stWithEth.lastNetworkRead) / 1024 ∨
       (1 : ℚ)/10 < ((sub64 ethNewCounter.bytesRecv ethOldIface.bytesRecv : Nat) : ℚ) /
          (1 - stWithEth.lastNetworkRead) / 1024)) :=
  ⟨⟨rfl, by norm_num [stWithEth], by decide, List.mem_singleton.mpr rfl, by decide⟩,
   getNetworkSpeeds_gate_iff stWithEth [ethNewCounter] 0 1 ethStoreFun rfl
     (by norm_num [stWithEth]) (by decide) ethNewCounter (List.mem_singleton.mpr rfl)
     ethOldIface (by decide)⟩

/-- C10: when the current cumulative counter is below the stored baseline
(counter reset), the delta is computed by unsigned 64-bit wraparound, so the
resulting rate is strictly positive (never zero or negative), enormous for
any realistic baseline, and the interface's point is emitted once it clears
the display gate. -/
theorem counterReset_wraparound (st : NetState) (cs : List IOCounter) (conns : Nat)
    (now : ℚ) (prev : String → Option NetworkInterface)
    (hst : st.previousNetStats = some prev)
    (hdt : 0 < now - st.lastNetworkRead)
    (hnd : (cs.map IOCounter.name).Nodup)
    (c : IOCounter) (hc : c ∈ cs) (p : NetworkInterface) (hp : prev c.name = some p)
    (hlt : c.bytesSent < p.bytesSent) (hp64 : p.bytesSent < 2^64) :
    sub64 c.bytesSent p.bytesSent = 2^64 - (p.bytesSent - c.bytesSent) ∧
    0 < ((sub64 c.bytesSent p.bytesSent : Nat) : ℚ) / (now - st.lastNetworkRead) / 1024 ∧
    (p.bytesSent ≤ 2^63 →
      (2:ℚ)^63 / ((now - st.lastNetworkRead) * 1024) ≤
        ((sub64 c.bytesSent p.bytesSent : Nat) : ℚ) / (now - st.lastNetworkRead) / 1024) ∧
    ((1 : ℚ)/10 <
        ((sub64 c.bytesSent p.bytesSent : Nat) : ℚ) / (now - st.lastNetworkRead) / 1024 →
      ({ interface := c.name
         uploadKBps :=
           ((sub64 c.bytesSent p.bytesSent : Nat) : ℚ) / (now - st.lastNetworkRead) / 1024
         downloadKBps :=
           ((sub64 c.bytesRecv p.bytesRecv : Nat) : ℚ) / (now - st.lastNetworkRead) / 1024
         timestamp := now } : NetworkSpeed) ∈ (GetNetworkSpeeds st cs conns now).1) := by
  have hsub : sub64 c.bytesSent p.bytesSent = 2^64 - (p.bytesSent - c.bytesSent) := by
    rw [sub64, Nat.mod_eq_of_lt (by omega)]
    omega
  have hN : 0 < ((sub64 c.bytesSent p.bytesSent : Nat) : ℚ) := by
    have : 0 < sub64 c.bytesSent p.bytesSent := by rw [hsub]; omega
    exact_mod_cast this
  refine ⟨hsub, ?_, ?_, ?_⟩
  · exact div_pos (div_pos hN hdt) (by norm_num)
  · intro hps
    have hN2 : (2:ℚ)^63 ≤ ((sub64 c.bytesSent p.bytesSent : Nat) : ℚ) := by
      have : (2:Nat)^63 ≤ sub64 c.bytesSent p.bytesSent := by rw [hsub]; omega
      exact_mod_cast this
    rw [div_div]
    exact (div_le_div_iff_of_pos_right (by positivity)).mpr hN2
  · intro hg
    exact (speedPoint_mem_iff st cs conns now prev hst hdt hnd c hc p hp).mpr (Or.inl hg)

/-- Witness for C10: eth0 reset from 5000 to 100 cumulative bytes. -/
theorem counterReset_wraparound_witness :
    (stBigEth.previousNetStats = some bigStoreFun ∧
      (0 : ℚ) < 1 - stBigEth.lastNetworkRead ∧
      (([ethResetCounter] : List IOCounter).map IOCounter.name).Nodup ∧
      ethResetCounter ∈ ([ethResetCounter] : List IOCounter) ∧
      bigStoreFun ethResetCounter.name = some ethBigIface ∧
      ethResetCounter.bytesSent < ethBigIface.bytesSent ∧
      ethBigIface.bytesSent < 2^64) ∧
    (sub64 ethResetCounter.bytesSent ethBigIface.bytesSent =
      2^64 - (ethBigIface.bytesSent - ethResetCounter.bytesSent) ∧
     0 < ((sub64 ethResetCounter.bytesSent ethBigIface.bytesSent : Nat) : ℚ) /
       (1 - stBigEth.lastNetworkRead) / 1024 ∧
     (ethBigIface.bytesSent ≤ 2^63 →
       (2:ℚ)^63 / ((1 - stBigEth.lastNetworkRead) * 1024) ≤
         ((sub64 ethResetCounter.bytesSent ethBigIface.bytesSent : Nat) : ℚ) /
           (1 - stBigEth.lastNetworkRead) / 1024) ∧
     ((1 : ℚ)/10 <
         ((sub64 ethResetCounter.bytesSent ethBigIface.bytesSent : Nat) : ℚ) /
           (1 - stBigEth.lastNetworkRead) / 1024 →
       ({ interface := ethResetCounter.name
          uploadKBps :=
            ((sub64 ethResetCounter.bytesSent ethBigIface.bytesSent : Nat) : ℚ) /
              (1 - stBigEth.lastNetworkRead) / 1024
          downloadKBps :=
            ((sub64 ethResetCounter.bytesRecv ethBigIface.bytesRecv : Nat) : ℚ) /
              (1 - stBigEth.lastNetworkRead) / 1024
          timestamp := 1 } : NetworkSpeed) ∈
         (GetNetworkSpeeds stBigEth [ethResetCounter] 0 1).1)) :=
  ⟨⟨rfl, by norm_num [stBigEth], by decide, List.mem_singleton.mpr rfl, by decide,
    by decide, by decide⟩,
   counterReset_wraparound stBigEth [ethResetCounter] 0 1 bigStoreFun rfl
     (by norm_num [stBigEth]) (by decide) ethResetCounter (List.mem_singleton.mpr rfl)
     ethBigIface (by decide) (by decide) (by decide)⟩

end Sysmon
